import Mathlib

/-!
Shallow embedding of the isotropy-webdisk in-memory file system engine.

The core operations (path helpers, getNode, getDir, cloneDirWithModification,
createFile, createDir, readFile, readDir, readDirRecursive, remove) are
translated from src/src/disk.ts; the move/copy family and the typed removes
(moveFile, moveDir, copyFile, copyDir, removeFile, removeDir, and the
option-less private remove they rely on) are translated from the complete
revision of the engine kept in src/unnamed/part_002, whose core functions are
identical to those of src/src/disk.ts.

JavaScript string primitives used by the source (String.prototype.split on
"/", Array.prototype.join("/"), a trailing-slash regex test, and
String.prototype.startsWith) are modelled by character-list functions with
the same semantics, so that every definition evaluates inside the kernel.

State and exceptions: the TypeScript class mutates a single field
(this.fsTree) and throws exceptions.  An operation that performs several
assignments can throw between them, so operations are embedded as functions
returning an Outcome that carries the tree held at the moment of normal or
exceptional return.  Each distinct exception message template of the source
becomes one DiskError constructor.
-/

namespace Webdisk

/-- Character-level splitter: semantics of the JavaScript path.split("/"). -/
def splitSlashAux (cur : List Char) (cs : List Char) : List String :=
  match cs with
  | [] => [String.mk cur.reverse]
  | c :: rest =>
    if c = '/' then String.mk cur.reverse :: splitSlashAux [] rest
    else splitSlashAux (c :: cur) rest

/-- path.split("/") from the source, at the character level. -/
def splitOnSlash (s : String) : List String := splitSlashAux [] s.data

/-- The regex test /\/$/.test(path) of the source: last character is a slash. -/
def strEndsWithSlash (s : String) : Bool := s.data.getLast? = some '/'

/-- JavaScript String.prototype.startsWith, at the character level. -/
def strStartsWith (s p : String) : Bool := p.data.isPrefixOf s.data

/-- Array.prototype.join("/") from the source. -/
def joinSlash : List String → String
  | [] => ""
  | [x] => x
  | x :: rest => x ++ "/" ++ joinSlash rest

/-- toParts from src/src/disk.ts: split on "/" and drop a trailing empty
segment produced by a trailing slash. -/
def toParts (path : String) : List String :=
  let parts := splitOnSlash path
  if strEndsWithSlash path then parts.dropLast else parts

/-- getNodeName from src/src/disk.ts: toParts(path).slice(-1)[0]. -/
def getNodeName (path : String) : String := ((toParts path).getLast?).getD ""

/-- isValidFilePath from src/src/disk.ts: path does not end in "/". -/
def isValidFilePath (path : String) : Bool := !strEndsWithSlash path

/-- getParentPath from src/src/disk.ts: all parts but the last, rejoined. -/
def getParentPath (path : String) : String := joinSlash (toParts path).dropLast

/-- isChild from src/unnamed/part_002: destination starts with the source
path, a "/" appended to the source first unless it already ends in one. -/
def isChild (maybeParent node : String) : Bool :=
  strStartsWith node
    (if strEndsWithSlash maybeParent then maybeParent else maybeParent ++ "/")

/-- One constructor per exception message template of the source. -/
inductive DiskError where
  /-- message "Invalid path (path)." -/
  | invalidPath (path : String)
  /-- message "Invalid filename (path)." -/
  | invalidFilename (path : String)
  /-- message "The path (path) is invalid.", raised by getNode when an
  intermediate node of the walk is a file -/
  | pathInvalid (path : String)
  /-- message "The path (path) exists but is not a directory.", raised by
  getNode for a trailing-slash path resolving to a file -/
  | existsButNotDir (path : String)
  /-- message "The path (path) is not a directory.", raised by getDir and by
  cloneDirWithModification -/
  | notADirectory (path : String)
  /-- message "The path (path) does not exist." -/
  | doesNotExist (path : String)
  /-- message "The path (path) already exists." -/
  | alreadyExists (path : String)
  /-- message "The path (path) is already a file." -/
  | alreadyAFile (path : String)
  /-- message "The path (path) is a directory." -/
  | isADirectory (path : String)
  /-- message "The path (path) is a file." -/
  | isAFile (path : String)
  /-- message "The path (path) is not a file.", raised by getFilename -/
  | notAFile (path : String)
  /-- message "Cannot copy path (path) into itself." -/
  | cannotMoveIntoSelf (path : String)
  /-- fuel-exhaustion marker for the embedded createDir recursion; never
  reached by the executions studied here -/
  | outOfFuel
  /-- models the unchecked TypeScript cast (as DirNode) in createDir applied
  to a non-directory value, which would crash the recursive caller -/
  | castError (path : String)

/-- getFilename from src/src/disk.ts. -/
def getFilename (path : String) : Except DiskError String :=
  if strEndsWithSlash path then .error (.notAFile path)
  else .ok (getNodeName path)

/-- The node type of src/src/isotropy-webdisk.ts: a FileNode has string
contents, a DirNode has a list of children; isDir tests the variant. -/
inductive TreeNode where
  | file (name : String) (contents : String)
  | dir (name : String) (contents : List TreeNode)

/-- The name field common to both variants. -/
def TreeNode.name : TreeNode → String
  | .file n _ => n
  | .dir n _ => n

/-- isDir from the source (Array.isArray on contents). -/
def TreeNode.isDir : TreeNode → Bool
  | .file _ _ => false
  | .dir _ _ => true

/-- The spread {...source, name: newName} used by moveAndDeleteOriginal. -/
def TreeNode.withName : TreeNode → String → TreeNode
  | .file _ c, n => .file n c
  | .dir _ cs, n => .dir n cs

/-- contents.find(x => x.name === name): first child with the given name. -/
def findChild (cs : List TreeNode) (nm : String) : Option TreeNode :=
  cs.find? (fun x => x.name = nm)

/-- The contents.map of doCloneDirWithModification, one level of the clone:
rebuild every child whose name matches the next part q with the recursion
received as an argument (a file with a matching name raises the
not-a-directory failure with the remaining path rejoined), keeping other
children as they are, with the left-to-right evaluation and
first-exception-aborts semantics of JavaScript map. -/
def cloneGo (p0 q : String) (rest : List String)
    (recurse : String → List TreeNode → Except DiskError (String × List TreeNode)) :
    List TreeNode → Except DiskError (List TreeNode)
  | [] => .ok []
  | item :: restItems =>
    match
      (if item.name = q then
        match item with
        | .dir n cs =>
          match recurse n cs with
          | .error e => .error e
          | .ok (n', cs') => .ok (TreeNode.dir n' cs')
        | .file _ _ =>
          .error (.notADirectory ("/" ++ joinSlash (p0 :: q :: rest)))
      else .ok item : Except DiskError TreeNode)
    with
    | .error e => .error e
    | .ok h =>
      match cloneGo p0 q rest recurse restItems with
      | .error e => .error e
      | .ok t => .ok (h :: t)

/-- doCloneDirWithModification from src/src/disk.ts: applied to a node's name
and contents and the full toParts list of the target path.  With a single
remaining part the modification function is applied to the current
directory; otherwise the children are mapped by cloneGo, recursing into
every matching directory child with the tail of the path. -/
def doClone (tname : String) (tcontents : List TreeNode) (path : List String)
    (fn : String → List TreeNode → Except DiskError (String × List TreeNode)) :
    Except DiskError (String × List TreeNode) :=
  match path with
  | [] => .ok (tname, tcontents)
  | [_] => fn tname tcontents
  | p0 :: q :: rest =>
    match cloneGo p0 q rest (fun n cs => doClone n cs (q :: rest) fn) tcontents with
    | .error e => .error e
    | .ok cs' => .ok (tname, cs')

/-- The fsTree field of the Disk class: the root DirNode. -/
structure Disk where
  rootName : String
  rootContents : List TreeNode

/-- The root directory as a node. -/
def Disk.root (d : Disk) : TreeNode := .dir d.rootName d.rootContents

/-- The inner loop of getNode from src/src/disk.ts.  The path string and the
must-be-directory flag only feed the failure messages and the final check. -/
def getNodeLoop (path : String) (mustBeDir : Bool) :
    Option TreeNode → List String → Except DiskError (Option TreeNode)
  | none, _ => .ok none
  | some t, [] =>
    if !mustBeDir || t.isDir then .ok (some t)
    else .error (.existsButNotDir path)
  | some t, p :: rest =>
    match t with
    | .dir _ cs => getNodeLoop path mustBeDir (findChild cs p) rest
    | .file _ _ => .error (.pathInvalid path)

/-- getNode from src/src/disk.ts: the root for "/", otherwise the loop over
toParts(path).slice(1) with the trailing-slash flag. -/
def Disk.getNode (d : Disk) (path : String) : Except DiskError (Option TreeNode) :=
  if path = "/" then .ok (some d.root)
  else getNodeLoop path (strEndsWithSlash path) (some d.root) ((toParts path).drop 1)

/-- getDir from src/src/disk.ts, returning the directory's name and contents. -/
def Disk.getDir (d : Disk) (path : String) :
    Except DiskError (String × List TreeNode) :=
  match d.getNode path with
  | .error e => .error e
  | .ok none => .error (.doesNotExist path)
  | .ok (some (.file _ _)) => .error (.notADirectory path)
  | .ok (some (.dir n cs)) => .ok (n, cs)

/-- cloneDirWithModification from src/src/disk.ts, applied to the held tree. -/
def Disk.cloneDir (d : Disk) (path : String)
    (fn : String → List TreeNode → Except DiskError (String × List TreeNode)) :
    Except DiskError Disk :=
  match doClone d.rootName d.rootContents (toParts path) fn with
  | .error e => .error e
  | .ok (n, cs) => .ok ⟨n, cs⟩

/-- Result of a stateful operation: the value or the exception, together with
the tree held by the engine at that moment. -/
inductive Outcome (α : Type) where
  | ok (a : α) (d : Disk)
  | err (e : DiskError) (d : Disk)

/-- createFile from src/src/disk.ts (private _createFile; the public method
forwards directly).  The unreachable branch for a falsy getDir result is
omitted, since getDir throws in every non-directory case. -/
def Disk.createFile (d : Disk) (path contents : String) (overwrite : Bool) :
    Outcome Unit :=
  if isValidFilePath path then
    match d.getDir (getParentPath path) with
    | .error e => .err e d
    | .ok _ =>
      match d.cloneDir (getParentPath path) (fun dn dcs =>
        match getFilename path with
        | .error e => .error e
        | .ok filename =>
          if (findChild dcs filename).isNone || overwrite then
            .ok (dn, dcs.filter (fun x => x.name ≠ filename)
               ++ [.file filename contents])
          else .error (.alreadyExists path)) with
      | .error e => .err e d
      | .ok d' => .ok () d'
  else .err (.invalidPath path) d

/-- The part of _createDir from src/src/disk.ts that runs once the parent
directory is in hand: check the target, then either report the conflict,
return the existing directory, or append a fresh empty directory and
re-resolve it (the source casts the re-resolved node with as DirNode; a
non-directory value there is modelled by the castError outcome). -/
def createDirCont (d : Disk) (path : String) (ignoreIfExists : Bool)
    (pcs : List TreeNode) : Outcome (String × List TreeNode) :=
  match findChild pcs (getNodeName path) with
  | some (.file _ _) => .err (.alreadyAFile path) d
  | some (.dir n cs) =>
    if ignoreIfExists then .ok (n, cs) d else .err (.alreadyExists path) d
  | none =>
    match d.cloneDir (getParentPath path)
        (fun dn dcs => .ok (dn, dcs ++ [.dir (getNodeName path) []])) with
    | .error e => .err e d
    | .ok d3 =>
      match d3.getNode path with
      | .error e => .err e d3
      | .ok (some (.dir n cs)) => .ok (n, cs) d3
      | .ok _ => .err (.castError path) d3

/-- _createDir from src/src/disk.ts.  The source recurses on the parent path;
the recursion is embedded with explicit fuel, an extra argument that strictly
decreases and whose exhaustion is marked by the outOfFuel outcome. -/
def Disk.createDirAux : Nat → Disk → String → Bool → Bool →
    Outcome (String × List TreeNode)
  | 0, d, _, _, _ => .err .outOfFuel d
  | Nat.succ fuel, d, path, ignoreIfExists, parents =>
    match d.getNode (getParentPath path) with
    | .error e => .err e d
    | .ok (some (.dir _ pcs)) => createDirCont d path ignoreIfExists pcs
    | .ok _ =>
      if parents then
        match Disk.createDirAux fuel d (getParentPath path) false true with
        | .err e d' => .err e d'
        | .ok (_, pcs) d' => createDirCont d' path ignoreIfExists pcs
      else .err (.invalidPath path) d

/-- The public createDir of src/src/disk.ts: runs _createDir and discards its
return value.  The fuel is one more than the number of path parts, enough for
every execution studied here. -/
def Disk.createDir (d : Disk) (path : String) (ignoreIfExists parents : Bool) :
    Outcome Unit :=
  match Disk.createDirAux ((toParts path).length + 1) d path ignoreIfExists parents with
  | .ok _ d' => .ok () d'
  | .err e d' => .err e d'

/-- readFile from src/src/disk.ts.  It performs no assignment, so it is a
pure function of the held tree. -/
def Disk.readFile (d : Disk) (path : String) : Except DiskError String :=
  if isValidFilePath path then
    match d.getNode path with
    | .error e => .error e
    | .ok none => .error (.doesNotExist path)
    | .ok (some (.dir _ _)) => .error (.isADirectory path)
    | .ok (some (.file _ c)) => .ok c
  else .error (.invalidFilename path)

/-- readDir from src/src/disk.ts: the immediate children's paths, written
path ++ "/" ++ name, in the order of the contents sequence. -/
def Disk.readDir (d : Disk) (path : String) : Except DiskError (List String) :=
  match d.getDir path with
  | .error e => .error e
  | .ok (_, cs) => .ok (cs.map (fun x => path ++ "/" ++ x.name))

mutual

/-- The reduce of the inner read function of readDirRecursive: a left fold
appending each child's block to the accumulator. -/
def readFold (acc : List String) (cs : List TreeNode) (path : String) :
    List String :=
  match cs with
  | [] => acc
  | x :: rest => readFold (acc ++ readInner x path) rest path

/-- One child's block in readDirRecursive: the child's path, followed for a
directory child by the recursive listing of that directory. -/
def readInner (x : TreeNode) (path : String) : List String :=
  match x with
  | .dir n cs => (path ++ "/" ++ n) :: readFold [] cs (path ++ "/" ++ n)
  | .file n _ => [path ++ "/" ++ n]

end

/-- readDirRecursive from src/src/disk.ts. -/
def Disk.readDirRecursive (d : Disk) (path : String) :
    Except DiskError (List String) :=
  match d.getDir path with
  | .error e => .error e
  | .ok (_, cs) => .ok (readFold [] cs path)

/-- _remove from src/src/disk.ts (the remove with a force option): detach the
resolved node by filtering its name out of the parent's children; a missing
node is a no-op under force and a failure otherwise. -/
def Disk.remove (d : Disk) (path : String) (force : Bool) : Outcome Unit :=
  match d.getNode path with
  | .error e => .err e d
  | .ok (some _) =>
    match d.cloneDir (getParentPath path)
        (fun dn dcs => .ok (dn, dcs.filter (fun c => c.name ≠ getNodeName path))) with
    | .error e => .err e d
    | .ok d' => .ok () d'
  | .ok none => if force then .ok () d else .err (.doesNotExist path) d

/-- The private option-less _remove of src/unnamed/part_002 used by the move
family: like remove with force false. -/
def Disk.removePriv (d : Disk) (path : String) : Outcome Unit :=
  match d.getNode path with
  | .error e => .err e d
  | .ok (some _) =>
    match d.cloneDir (getParentPath path)
        (fun dn dcs => .ok (dn, dcs.filter (fun c => c.name ≠ getNodeName path))) with
    | .error e => .err e d
    | .ok d' => .ok () d'
  | .ok none => .err (.doesNotExist path) d

/-- _removeFile from src/unnamed/part_002: remove restricted to files. -/
def Disk.removeFile (d : Disk) (path : String) (force : Bool) : Outcome Unit :=
  match d.getNode path with
  | .error e => .err e d
  | .ok (some (.dir _ _)) => .err (.isADirectory path) d
  | .ok (some (.file _ _)) =>
    match d.cloneDir (getParentPath path)
        (fun dn dcs => .ok (dn, dcs.filter (fun c => c.name ≠ getNodeName path))) with
    | .error e => .err e d
    | .ok d' => .ok () d'
  | .ok none => if force then .ok () d else .err (.doesNotExist path) d

/-- _removeDir from src/unnamed/part_002: remove restricted to directories. -/
def Disk.removeDir (d : Disk) (path : String) (force : Bool) : Outcome Unit :=
  match d.getNode path with
  | .error e => .err e d
  | .ok (some (.file _ _)) => .err (.isAFile path) d
  | .ok (some (.dir _ _)) =>
    match d.cloneDir (getParentPath path)
        (fun dn dcs => .ok (dn, dcs.filter (fun c => c.name ≠ getNodeName path))) with
    | .error e => .err e d
    | .ok d' => .ok () d'
  | .ok none => if force then .ok () d else .err (.doesNotExist path) d

/-- moveAndDeleteOriginal from src/unnamed/part_002: append a copy of the
source, renamed to newName, to the directory at destDirPath, then (for a
move) delete the original with the option-less remove. -/
def Disk.moveAndDeleteOriginal (d : Disk) (source : TreeNode)
    (sourcePath newName destDirPath : String) (deleteOriginal : Bool) :
    Outcome Unit :=
  match d.cloneDir destDirPath
      (fun dn dcs => .ok (dn, dcs ++ [source.withName newName])) with
  | .error e => .err e d
  | .ok d1 => if deleteOriginal then d1.removePriv sourcePath else .ok () d1

/-- moveToDestParent from src/unnamed/part_002: require the destination's
parent to resolve, then insert the source there under the destination's leaf
name. -/
def Disk.moveToDestParent (d : Disk) (source : TreeNode)
    (sourcePath destPath : String) (deleteOriginal : Bool) : Outcome Unit :=
  match d.getNode (getParentPath destPath) with
  | .error e => .err e d
  | .ok none => .err (.doesNotExist (getParentPath destPath)) d
  | .ok (some _) =>
    d.moveAndDeleteOriginal source sourcePath (getNodeName destPath)
      (getParentPath destPath) deleteOriginal

/-- _moveFile from src/unnamed/part_002, shared by moveFile (deleteOriginal
true) and copyFile (deleteOriginal false). -/
def Disk.moveFileAux (d : Disk) (sourcePath destPath : String)
    (force deleteOriginal : Bool) : Outcome Unit :=
  match d.getNode sourcePath with
  | .error e => .err e d
  | .ok none => .err (.doesNotExist sourcePath) d
  | .ok (some (.dir _ _)) => .err (.isADirectory sourcePath) d
  | .ok (some source) =>
    match d.getNode destPath with
    | .error e => .err e d
    | .ok (some dest) =>
      if dest.isDir then
        d.moveAndDeleteOriginal source sourcePath source.name destPath
          deleteOriginal
      else if force then
        match d.removePriv destPath with
        | .err e d1 => .err e d1
        | .ok _ d1 =>
          d1.moveToDestParent source sourcePath destPath deleteOriginal
      else .err (.alreadyExists destPath) d
    | .ok none => d.moveToDestParent source sourcePath destPath deleteOriginal

/-- _moveDir from src/unnamed/part_002, shared by moveDir and copyDir; the
isChild self-move guard runs right after the source is resolved. -/
def Disk.moveDirAux (d : Disk) (sourcePath destPath : String)
    (force deleteOriginal : Bool) : Outcome Unit :=
  match d.getNode sourcePath with
  | .error e => .err e d
  | .ok none => .err (.doesNotExist sourcePath) d
  | .ok (some source) =>
    if isChild sourcePath destPath then
      .err (.cannotMoveIntoSelf sourcePath) d
    else
      match source with
      | .file _ _ => .err (.isAFile sourcePath) d
      | .dir _ _ =>
        match d.getNode destPath with
        | .error e => .err e d
        | .ok (some dest) =>
          if dest.isDir then
            d.moveAndDeleteOriginal source sourcePath source.name destPath
              deleteOriginal
          else if force then
            match d.removePriv destPath with
            | .err e d1 => .err e d1
            | .ok _ d1 =>
              d1.moveToDestParent source sourcePath destPath deleteOriginal
          else .err (.alreadyExists destPath) d
        | .ok none =>
          d.moveToDestParent source sourcePath destPath deleteOriginal

/-- moveFile from src/unnamed/part_002. -/
def Disk.moveFile (d : Disk) (sourcePath destPath : String) (force : Bool) :
    Outcome Unit :=
  d.moveFileAux sourcePath destPath force true

/-- copyFile from src/unnamed/part_002. -/
def Disk.copyFile (d : Disk) (sourcePath destPath : String) (force : Bool) :
    Outcome Unit :=
  d.moveFileAux sourcePath destPath force false

/-- moveDir from src/unnamed/part_002. -/
def Disk.moveDir (d : Disk) (sourcePath destPath : String) (force : Bool) :
    Outcome Unit :=
  d.moveDirAux sourcePath destPath force true

/-- copyDir from src/unnamed/part_002. -/
def Disk.copyDir (d : Disk) (sourcePath destPath : String) (force : Bool) :
    Outcome Unit :=
  d.moveDirAux sourcePath destPath force false

mutual

/-- The tree invariant of the specification on one node: sibling names are
pairwise distinct in every directory, recursively. -/
def uniqNode : TreeNode → Bool
  | .file _ _ => true
  | .dir _ cs => noDupNames cs && uniqList cs

/-- The invariant for every node of a list. -/
def uniqList : List TreeNode → Bool
  | [] => true
  | x :: rest => uniqNode x && uniqList rest

/-- Pairwise distinctness of the names of a sibling list. -/
def noDupNames : List TreeNode → Bool
  | [] => true
  | x :: rest => !(rest.any (fun y => y.name = x.name)) && noDupNames rest

end

/-- The invariant for a whole held tree. -/
def Disk.uniq (d : Disk) : Bool := noDupNames d.rootContents && uniqList d.rootContents

mutual

/-- Number of nodes in a subtree, used as a concrete observation telling two
trees apart. -/
def nodeCount : TreeNode → Nat
  | .file _ _ => 1
  | .dir _ cs => 1 + nodeCountList cs

/-- Number of nodes in a forest. -/
def nodeCountList : List TreeNode → Nat
  | [] => 0
  | x :: r => nodeCount x + nodeCountList r

end

/-- Number of nodes held by the engine. -/
def Disk.size (d : Disk) : Nat := nodeCountList d.rootContents

end Webdisk

namespace Webdisk

/-! ## Basic lemmas about the embedded operations -/

/-- A failing createFile returns the tree it was given: the single
assignment of the source happens only after the modified tree has been
fully built. -/
theorem createFile_err_unchanged (d : Disk) (path c : String) (ow : Bool)
    (e : DiskError) (d' : Disk) (h : d.createFile path c ow = .err e d') :
    d' = d := by
  unfold Disk.createFile at h
  split at h
  · split at h
    · cases h; rfl
    · split at h
      · cases h; rfl
      · cases h
  · cases h; rfl

/-- A failing remove returns the tree it was given. -/
theorem remove_err_unchanged (d : Disk) (path : String) (force : Bool)
    (e : DiskError) (d' : Disk) (h : d.remove path force = .err e d') :
    d' = d := by
  unfold Disk.remove at h
  split at h
  · cases h; rfl
  · split at h
    · cases h; rfl
    · cases h
  · split at h
    · cases h
    · cases h; rfl

end Webdisk

namespace Webdisk

/-- A failing removeFile returns the tree it was given. -/
theorem removeFile_err_unchanged (d : Disk) (path : String) (force : Bool)
    (e : DiskError) (d' : Disk) (h : d.removeFile path force = .err e d') :
    d' = d := by
  unfold Disk.removeFile at h
  split at h
  · cases h; rfl
  · cases h; rfl
  · split at h
    · cases h; rfl
    · cases h
  · split at h
    · cases h
    · cases h; rfl

/-- A failing removeDir returns the tree it was given. -/
theorem removeDir_err_unchanged (d : Disk) (path : String) (force : Bool)
    (e : DiskError) (d' : Disk) (h : d.removeDir path force = .err e d') :
    d' = d := by
  unfold Disk.removeDir at h
  split at h
  · cases h; rfl
  · cases h; rfl
  · split at h
    · cases h; rfl
    · cases h
  · split at h
    · cases h
    · cases h; rfl

/-- A failing option-less private remove returns the tree it was given. -/
theorem removePriv_err_unchanged (d : Disk) (path : String)
    (e : DiskError) (d' : Disk) (h : d.removePriv path = .err e d') :
    d' = d := by
  unfold Disk.removePriv at h
  split at h
  · cases h; rfl
  · split at h
    · cases h; rfl
    · cases h
  · cases h; rfl

/-! ## Walk lemmas -/

/-- Walking from an absent node yields absence, never a failure. -/
theorem getNodeLoop_none (pth : String) (mbd : Bool) (segs : List String) :
    getNodeLoop pth mbd none segs = .ok none := by
  cases segs <;> rfl

/-- getNode is the loop over the parts of the path; the special arm for the
root path gives the same result as the loop on no segments. -/
theorem getNode_eq_loop (d : Disk) (p : String) :
    d.getNode p =
      getNodeLoop p (strEndsWithSlash p) (some d.root) ((toParts p).drop 1) := by
  unfold Disk.getNode
  split
  · subst p; rfl
  · rfl

/-- Walking a successful path is independent of the message path and of the
must-be-directory flag once the result is a directory. -/
theorem getNodeLoop_irrel {t : Option TreeNode} {segs : List String}
    {pth : String} {m mcs : _} (pth' : String) (mbd : Bool)
    (h : getNodeLoop pth false t segs = .ok (some (.dir m mcs))) :
    getNodeLoop pth' mbd t segs = .ok (some (.dir m mcs)) := by
  induction segs generalizing t with
  | nil =>
    match t with
    | none => simp [getNodeLoop] at h
    | some u =>
      unfold getNodeLoop at h ⊢
      simp at h
      subst h
      simp [TreeNode.isDir]
  | cons s rest ih =>
    match t with
    | none => simp [getNodeLoop] at h
    | some (.file a b) => simp [getNodeLoop] at h
    | some (.dir a cs) =>
      unfold getNodeLoop at h ⊢
      exact ih h

/-- Splitting a walk at an intermediate node reached with the flag off. -/
theorem getNodeLoop_append {a : List String} {t r : TreeNode} {pth' : String}
    (b : List String) (pth : String) (mbd : Bool)
    (h : getNodeLoop pth' false (some t) a = .ok (some r)) :
    getNodeLoop pth mbd (some t) (a ++ b) = getNodeLoop pth mbd (some r) b := by
  induction a generalizing t with
  | nil =>
    unfold getNodeLoop at h
    simp at h
    subst h
    rfl
  | cons s rest ih =>
    match t with
    | .file x y => simp [getNodeLoop] at h
    | .dir x cs =>
      replace h : getNodeLoop pth' false (findChild cs s) rest = .ok (some r) := h
      show getNodeLoop pth mbd (findChild cs s) (rest ++ b) = _
      match hf : findChild cs s with
      | none => rw [hf] at h; rw [getNodeLoop_none] at h; cases h
      | some u =>
        rw [hf] at h
        exact ih h

end Webdisk

namespace Webdisk

/-! ## A specification-level single-path updater

Under the sibling-uniqueness invariant, cloneDirWithModification follows the
unique name match at every level, so its effect is captured by the following
total single-path updater, about which the frame lemmas are proved. -/

/-- One level of the single-path updater: apply upd to the children of the
first sibling named s, requiring it to be a directory. -/
def modifyGo (s : String) (upd : List TreeNode → Option (List TreeNode)) :
    List TreeNode → Option (List TreeNode)
  | [] => none
  | x :: xs =>
    if x.name = s then
      match x with
      | .dir m mcs => (upd mcs).map (fun mcs' => TreeNode.dir m mcs' :: xs)
      | .file _ _ => none
    else (modifyGo s upd xs).map (fun ys => x :: ys)

/-- Replace the children of the node reached by following the first name
match along segs (the whole list when segs is empty) with newcs; absence or a
file on the way yields none. -/
def modifyA (cs : List TreeNode) (segs : List String) (newcs : List TreeNode) :
    Option (List TreeNode) :=
  match segs with
  | [] => some newcs
  | s :: rest => modifyGo s (fun mcs => modifyA mcs rest newcs) cs

/-- A successful find? splits the list at the first match. -/
theorem findChild_decomp {cs : List TreeNode} {s : String} {x : TreeNode}
    (h : findChild cs s = some x) :
    ∃ pre post, cs = pre ++ x :: post ∧ ∀ z ∈ pre, ¬(z.name = s) := by
  induction cs with
  | nil => simp [findChild] at h
  | cons y ys ih =>
    by_cases hy : y.name = s
    · refine ⟨[], ys, ?_, by simp⟩
      simp [findChild, List.find?, hy] at h
      simp [h]
    · have h' : findChild ys s = some x := by
        simpa [findChild, List.find?, hy] using h
      obtain ⟨pre, post, heq, hpre⟩ := ih h'
      exact ⟨y :: pre, post, by simp [heq], by
        intro z hz
        rcases List.mem_cons.mp hz with rfl | hz'
        · exact hy
        · exact hpre z hz'⟩

/-- find? of a split list whose first part has no match. -/
theorem findChild_build {pre post : List TreeNode} {s : String} {x : TreeNode}
    (hpre : ∀ z ∈ pre, ¬(z.name = s)) (hx : x.name = s) :
    findChild (pre ++ x :: post) s = some x := by
  induction pre with
  | nil => simp [findChild, List.find?, hx]
  | cons y ys ih =>
    have hy : ¬(y.name = s) := hpre y (by simp)
    have ih' := ih (fun z hz => hpre z (by simp [hz]))
    unfold findChild at ih' ⊢
    rw [List.cons_append, List.find?_cons]
    simp only [hy, decide_eq_true_eq, if_neg]
    exact ih' 

/-- uniqList distributes over append. -/
theorem uniqList_append (a b : List TreeNode) :
    uniqList (a ++ b) = (uniqList a && uniqList b) := by
  induction a with
  | nil => simp [uniqList]
  | cons x xs ih => simp [uniqList, ih, Bool.and_assoc]

/-- Every member of a list satisfying uniqList satisfies uniqNode. -/
theorem uniqList_mem {cs : List TreeNode} {x : TreeNode}
    (h : uniqList cs = true) (hx : x ∈ cs) : uniqNode x = true := by
  induction cs with
  | nil => cases hx
  | cons y ys ih =>
    simp only [uniqList, Bool.and_eq_true] at h
    rcases List.mem_cons.mp hx with rfl | hx'
    · exact h.1
    · exact ih h.2 hx'

/-- noDupNames restricted to a suffix. -/
theorem noDupNames_append_right {a b : List TreeNode}
    (h : noDupNames (a ++ b) = true) : noDupNames b = true := by
  induction a with
  | nil => exact h
  | cons x xs ih =>
    simp only [List.cons_append, noDupNames, Bool.and_eq_true] at h
    exact ih h.2

/-- The name-membership test is unchanged when one element is replaced by one
with the same name. -/
theorem any_name_replace (pre post : List TreeNode) (x y : TreeNode)
    (hxy : y.name = x.name) (nm : String) :
    (pre ++ y :: post).any (fun c => c.name = nm)
      = (pre ++ x :: post).any (fun c => c.name = nm) := by
  simp [List.any_append, List.any_cons, hxy]

/-- noDupNames is unchanged when one element is replaced by one with the same
name. -/
theorem noDupNames_replace (pre post : List TreeNode) (x y : TreeNode)
    (hxy : y.name = x.name) :
    noDupNames (pre ++ y :: post) = noDupNames (pre ++ x :: post) := by
  induction pre with
  | nil => simp [noDupNames, hxy]
  | cons z zs ih =>
    simp only [List.cons_append, noDupNames, List.append_eq]
    rw [ih, any_name_replace zs post x y hxy]

/-- uniqList after replacing one element by a unique one. -/
theorem uniqList_replace (pre post : List TreeNode) (x y : TreeNode)
    (h : uniqList (pre ++ x :: post) = true) (hy : uniqNode y = true) :
    uniqList (pre ++ y :: post) = true := by
  rw [uniqList_append] at h ⊢
  simp only [uniqList, Bool.and_eq_true] at h ⊢
  exact ⟨h.1, hy, h.2.2⟩

end Webdisk

namespace Webdisk

/-- A successful modifyA on a nonempty segment list splits the sibling list
at the unique first name match, a directory whose children are updated
recursively. -/
theorem modifyA_point {cs : List TreeNode} {s : String} {rest : List String}
    {newcs cs2 : List TreeNode}
    (h : modifyA cs (s :: rest) newcs = some cs2) :
    ∃ pre mcs mcs2 post,
      cs = pre ++ TreeNode.dir s mcs :: post ∧
      cs2 = pre ++ TreeNode.dir s mcs2 :: post ∧
      (∀ z ∈ pre, ¬(z.name = s)) ∧
      modifyA mcs rest newcs = some mcs2 := by
  rw [modifyA] at h
  induction cs generalizing cs2 with
  | nil => simp [modifyGo] at h
  | cons x xs ih =>
    simp only [modifyGo] at h
    by_cases hx : x.name = s
    · rw [if_pos hx] at h
      match x, hx with
      | .dir m mcs, hx =>
        have hx' : m = s := hx
        subst hx'
        simp only [Option.map_eq_some'] at h
        obtain ⟨mcs2, hm, hcs2⟩ := h
        exact ⟨[], mcs, mcs2, xs, rfl, by simp [hcs2.symm], by simp, hm⟩
      | .file a b, hx => simp at h
    · rw [if_neg hx] at h
      simp only [Option.map_eq_some'] at h
      obtain ⟨ys, hm, hcs2⟩ := h
      obtain ⟨pre, mcs, mcs2, post, he1, he2, hpre, hrec⟩ := ih hm
      refine ⟨x :: pre, mcs, mcs2, post, by simp [he1], by simp [hcs2.symm, he2], ?_, hrec⟩
      intro z hz
      rcases List.mem_cons.mp hz with rfl | hz'
      · exact hx
      · exact hpre z hz'

/-- modifyA on a list split at the unique first match. -/
theorem modifyA_build {pre post mcs mcs2 newcs : List TreeNode} {s : String}
    {rest : List String}
    (hpre : ∀ z ∈ pre, ¬(z.name = s))
    (hm : modifyA mcs rest newcs = some mcs2) :
    modifyA (pre ++ TreeNode.dir s mcs :: post) (s :: rest) newcs
      = some (pre ++ TreeNode.dir s mcs2 :: post) := by
  rw [modifyA]
  induction pre with
  | nil => simp [modifyGo, TreeNode.name, hm]
  | cons y ys ih =>
    have hy : ¬(y.name = s) := hpre y (by simp)
    simp only [List.cons_append, modifyGo, if_neg hy, List.append_eq]
    rw [ih (fun z hz => hpre z (by simp [hz]))]
    rfl

/-- modifyA preserves the sibling-uniqueness invariant when the new children
satisfy it. -/
theorem modifyA_uniq : ∀ {segs : List String} {cs newcs cs2 : List TreeNode},
    modifyA cs segs newcs = some cs2 →
    noDupNames cs = true → uniqList cs = true →
    noDupNames newcs = true → uniqList newcs = true →
    noDupNames cs2 = true ∧ uniqList cs2 = true
  | [], cs, newcs, cs2, h, _, _, hn2, hu2 => by
    rw [modifyA] at h
    cases h
    exact ⟨hn2, hu2⟩
  | s :: rest, cs, newcs, cs2, h, hn, hu, hn2, hu2 => by
    obtain ⟨pre, mcs, mcs2, post, he1, he2, hpre, hrec⟩ := modifyA_point h
    subst he1
    subst he2
    have hmem : TreeNode.dir s mcs ∈ pre ++ TreeNode.dir s mcs :: post := by simp
    have hun : uniqNode (.dir s mcs) = true := uniqList_mem hu hmem
    rw [uniqNode, Bool.and_eq_true] at hun
    obtain ⟨hmn, hmu⟩ := modifyA_uniq hrec hun.1 hun.2 hn2 hu2
    constructor
    · rw [noDupNames_replace pre post (TreeNode.dir s mcs) (TreeNode.dir s mcs2) rfl]
      exact hn
    · exact uniqList_replace pre post (TreeNode.dir s mcs) (TreeNode.dir s mcs2) hu
        (by rw [uniqNode, hmn, hmu]; rfl)

/-- Walking a tree whose root satisfies the invariant reaches invariant
subtrees. -/
theorem getNodeLoop_target_uniq : ∀ {segs : List String} {t : TreeNode}
    {tn : String} {tcs : List TreeNode} {pth : String} {mbd : Bool},
    getNodeLoop pth mbd (some t) segs = .ok (some (.dir tn tcs)) →
    uniqNode t = true → uniqNode (.dir tn tcs) = true
  | [], t, tn, tcs, pth, mbd, h, hu => by
    unfold getNodeLoop at h
    split at h
    · cases h; exact hu
    · cases h
  | s :: rest, t, tn, tcs, pth, mbd, h, hu => by
    match t with
    | .file a b => exact absurd h (by simp [getNodeLoop])
    | .dir a cs =>
      replace h : getNodeLoop pth mbd (findChild cs s) rest
          = .ok (some (.dir tn tcs)) := h
      match hf : findChild cs s with
      | none => rw [hf, getNodeLoop_none] at h; cases h
      | some u =>
        rw [hf] at h
        have hmem : u ∈ cs := List.mem_of_find?_eq_some hf
        rw [uniqNode, Bool.and_eq_true] at hu
        exact getNodeLoop_target_uniq h (uniqList_mem hu.2 hmem)

end Webdisk

namespace Webdisk

/-- find? for another name is unchanged when one element is replaced by one
with the same name. -/
theorem findChild_replace (pre post : List TreeNode) (x y : TreeNode)
    (hxy : y.name = x.name) (nm : String) (hnm : ¬(x.name = nm)) :
    findChild (pre ++ y :: post) nm = findChild (pre ++ x :: post) nm := by
  induction pre with
  | nil =>
    unfold findChild
    rw [List.nil_append, List.nil_append, List.find?_cons, List.find?_cons, hxy]
    simp [hnm]
  | cons z zs ih =>
    unfold findChild at ih ⊢
    rw [List.cons_append, List.cons_append, List.find?_cons, List.find?_cons]
    match decide (z.name = nm) with
    | true => rfl
    | false => exact ih

/-- Resolution along the modified spine continues into the new children. -/
theorem modifyA_walk : ∀ {qsegs : List String} {n tn : String}
    {cs newcs cs2 tcs : List TreeNode} {pth : String},
    modifyA cs qsegs newcs = some cs2 →
    getNodeLoop pth false (some (.dir n cs)) qsegs = .ok (some (.dir tn tcs)) →
    ∀ psegs pth' mbd,
      getNodeLoop pth' mbd (some (.dir n cs2)) (qsegs ++ psegs)
        = getNodeLoop pth' mbd (some (.dir tn newcs)) psegs
  | [], n, tn, cs, newcs, cs2, tcs, pth, h, hw, psegs, pth', mbd => by
    rw [modifyA] at h
    cases h
    unfold getNodeLoop at hw
    simp only [Bool.not_false, Bool.true_or, reduceIte, Except.ok.injEq,
      Option.some.injEq] at hw
    cases hw
    rfl
  | s :: qs, n, tn, cs, newcs, cs2, tcs, pth, h, hw, psegs, pth', mbd => by
    obtain ⟨pre, mcs, mcs2, post, he1, he2, hpre, hrec⟩ := modifyA_point h
    subst he1
    subst he2
    replace hw : getNodeLoop pth false
        (findChild (pre ++ TreeNode.dir s mcs :: post) s) qs
        = .ok (some (.dir tn tcs)) := hw
    rw [findChild_build hpre (show (TreeNode.dir s mcs).name = s from rfl)] at hw
    show getNodeLoop pth' mbd
        (findChild (pre ++ TreeNode.dir s mcs2 :: post) s) (qs ++ psegs) = _
    rw [findChild_build hpre (show (TreeNode.dir s mcs2).name = s from rfl)]
    exact modifyA_walk hrec hw psegs pth' mbd

/-- Trees diverging from the modified spine resolve unchanged. -/
def divergeB : List String → List String → Bool
  | a :: as, b :: bs => if a = b then divergeB as bs else true
  | _, _ => false

/-- Resolution along a path that diverges from the modified spine is
unchanged. -/
theorem modifyA_walk_diverge : ∀ {qsegs psegs : List String}
    {cs newcs cs2 : List TreeNode},
    modifyA cs qsegs newcs = some cs2 →
    divergeB qsegs psegs = true →
    ∀ (n pth : String) (mbd : Bool),
      getNodeLoop pth mbd (some (.dir n cs2)) psegs
        = getNodeLoop pth mbd (some (.dir n cs)) psegs
  | [], psegs, cs, newcs, cs2, h, hd => by simp [divergeB] at hd
  | q :: qs, [], cs, newcs, cs2, h, hd => by simp [divergeB] at hd
  | q :: qs, p :: ps, cs, newcs, cs2, h, hd => by
    intro n pth mbd
    obtain ⟨pre, mcs, mcs2, post, he1, he2, hpre, hrec⟩ := modifyA_point h
    subst he1
    subst he2
    show getNodeLoop pth mbd
        (findChild (pre ++ TreeNode.dir q mcs2 :: post) p) ps
      = getNodeLoop pth mbd
        (findChild (pre ++ TreeNode.dir q mcs :: post) p) ps
    by_cases hqp : q = p
    · subst hqp
      rw [findChild_build hpre (show (TreeNode.dir q mcs2).name = q from rfl),
        findChild_build hpre (show (TreeNode.dir q mcs).name = q from rfl)]
      rw [divergeB, if_pos rfl] at hd
      exact modifyA_walk_diverge hrec hd q pth mbd
    · rw [findChild_replace pre post (TreeNode.dir q mcs) (TreeNode.dir q mcs2)
        rfl p hqp]

/-- Resolution strictly above the modified target reaches a directory whose
children carry the remaining modification. -/
theorem modifyA_walk_inside : ∀ {psegs : List String} {r : String}
    {rs : List String} {cs newcs cs2 : List TreeNode} {n m : String}
    {mcs : List TreeNode} {pth : String},
    modifyA cs (psegs ++ r :: rs) newcs = some cs2 →
    getNodeLoop pth false (some (.dir n cs)) psegs = .ok (some (.dir m mcs)) →
    ∃ mcs2, modifyA mcs (r :: rs) newcs = some mcs2 ∧
      ∀ pth' mbd, getNodeLoop pth' mbd (some (.dir n cs2)) psegs
        = .ok (some (.dir m mcs2))
  | [], r, rs, cs, newcs, cs2, n, m, mcs, pth, h, hw => by
    rw [List.nil_append] at h
    unfold getNodeLoop at hw
    simp only [Bool.not_false, Bool.true_or, reduceIte, Except.ok.injEq,
      Option.some.injEq] at hw
    cases hw
    refine ⟨cs2, h, fun pth' mbd => ?_⟩
    unfold getNodeLoop
    simp [TreeNode.isDir]
  | p :: ps, r, rs, cs, newcs, cs2, n, m, mcs, pth, h, hw => by
    rw [List.cons_append] at h
    obtain ⟨pre, mcs0, mcs02, post, he1, he2, hpre, hrec⟩ := modifyA_point h
    subst he1
    subst he2
    replace hw : getNodeLoop pth false
        (findChild (pre ++ TreeNode.dir p mcs0 :: post) p) ps
        = .ok (some (.dir m mcs)) := hw
    rw [findChild_build hpre (show (TreeNode.dir p mcs0).name = p from rfl)] at hw
    obtain ⟨mcs2, hm2, hwalk⟩ := modifyA_walk_inside hrec hw
    refine ⟨mcs2, hm2, fun pth' mbd => ?_⟩
    show getNodeLoop pth' mbd
        (findChild (pre ++ TreeNode.dir p mcs02 :: post) p) ps = _
    rw [findChild_build hpre (show (TreeNode.dir p mcs02).name = p from rfl)]
    exact hwalk pth' mbd

/-- The last sibling survives a modification aimed at a different name. -/
theorem modifyA_getLast {mcs mcs2 newcs : List TreeNode} {r : String}
    {rs : List String} {a : TreeNode}
    (h : modifyA mcs (r :: rs) newcs = some mcs2)
    (hl : mcs.getLast? = some a) (ha : ¬(a.name = r)) :
    mcs2.getLast? = some a := by
  obtain ⟨pre, m0, m02, post, he1, he2, hpre, hrec⟩ := modifyA_point h
  subst he1
  subst he2
  rw [List.getLast?_append_cons] at hl
  rw [List.getLast?_append_cons]
  match post, hl with
  | [], hl =>
    have h1 : ([TreeNode.dir r m0] : List TreeNode).getLast?
        = some (TreeNode.dir r m0) := rfl
    rw [h1] at hl
    cases hl
    exact absurd rfl ha
  | b :: bs, hl =>
    rw [List.getLast?_cons_cons] at hl ⊢
    exact hl

end Webdisk

namespace Webdisk

/-- In a duplicate-free sibling list, nothing after the first match matches. -/
theorem noDupNames_no_match {x : TreeNode} {post : List TreeNode}
    (h : noDupNames (x :: post) = true) :
    ∀ z ∈ post, ¬(z.name = x.name) := by
  intro z hz
  rw [noDupNames, Bool.and_eq_true] at h
  have h1 := h.1
  intro he
  rw [Bool.not_eq_true'] at h1
  have : post.any (fun y => y.name = x.name) = true :=
    List.any_eq_true.mpr ⟨z, hz, by simp [he]⟩
  rw [this] at h1
  cases h1

/-- The JavaScript map skips every sibling that does not match the next path
part. -/
theorem cloneGo_skip_all {items : List TreeNode} {p0 q : String}
    {rest : List String}
    {recurse : String → List TreeNode → Except DiskError (String × List TreeNode)}
    (h : ∀ z ∈ items, ¬(z.name = q)) :
    cloneGo p0 q rest recurse items = .ok items := by
  induction items with
  | nil => rw [cloneGo]
  | cons x xs ih =>
    have hx := h x (by simp)
    have ih' := ih (fun z hz => h z (by simp [hz]))
    match x, hx with
    | .file a b, hx => rw [cloneGo, if_neg hx, ih']
    | .dir a acs, hx => rw [cloneGo, if_neg hx, ih']

/-- The map splits over an unmatched leading part of the sibling list. -/
theorem cloneGo_skip_head {pre l : List TreeNode} {p0 q : String}
    {rest : List String}
    {recurse : String → List TreeNode → Except DiskError (String × List TreeNode)}
    (h : ∀ z ∈ pre, ¬(z.name = q)) :
    cloneGo p0 q rest recurse (pre ++ l)
      = (cloneGo p0 q rest recurse l).map (fun t => pre ++ t) := by
  induction pre with
  | nil =>
    simp only [List.nil_append]
    cases cloneGo p0 q rest recurse l <;> rfl
  | cons x xs ih =>
    have hx := h x (by simp)
    have ih' := ih (fun z hz => h z (by simp [hz]))
    rw [List.cons_append]
    match x, hx with
    | .file a b, hx =>
      rw [cloneGo, if_neg hx, ih']
      cases cloneGo p0 q rest recurse l <;> rfl
    | .dir a acs, hx =>
      rw [cloneGo, if_neg hx, ih']
      cases cloneGo p0 q rest recurse l <;> rfl

/-- Under the invariant, cloneDirWithModification along a resolvable spine
behaves as the single-path updater: the modification function is applied
exactly once, to the resolved target, its failure is the whole failure, and
its new children are substituted at the target. -/
theorem doClone_core : ∀ {segs : List String} {n tn : String}
    {cs tcs : List TreeNode} {pth : String} (h0 : String)
    (fn : String → List TreeNode → Except DiskError (String × List TreeNode)),
    noDupNames cs = true → uniqList cs = true →
    getNodeLoop pth false (some (.dir n cs)) segs = .ok (some (.dir tn tcs)) →
    ((∀ {tcs2 : List TreeNode}, fn tn tcs = .ok (tn, tcs2) →
        ∃ cs2, doClone n cs (h0 :: segs) fn = .ok (n, cs2) ∧
          modifyA cs segs tcs2 = some cs2) ∧
     (∀ {e : DiskError}, fn tn tcs = .error e →
        doClone n cs (h0 :: segs) fn = .error e))
  | [], n, tn, cs, tcs, pth, h0, fn, hnd, hul, hw => by
    unfold getNodeLoop at hw
    simp only [Bool.not_false, Bool.true_or, reduceIte, Except.ok.injEq,
      Option.some.injEq] at hw
    cases hw
    constructor
    · intro tcs2 hfn
      exact ⟨tcs2, by simp [doClone, hfn], by rw [modifyA]⟩
    · intro e hfn
      simp [doClone, hfn]
  | s :: rest, n, tn, cs, tcs, pth, h0, fn, hnd, hul, hw => by
    replace hw : getNodeLoop pth false (findChild cs s) rest
        = .ok (some (.dir tn tcs)) := hw
    match hf : findChild cs s with
    | none => rw [hf, getNodeLoop_none] at hw; cases hw
    | some (.file a b) =>
      rw [hf] at hw
      match rest, hw with
      | [], hw =>
        replace hw : (Except.ok (some (TreeNode.file a b))
            : Except DiskError (Option TreeNode)) = .ok (some (.dir tn tcs)) := hw
        simp at hw
      | r :: rs, hw =>
        replace hw : (Except.error (DiskError.pathInvalid pth)
            : Except DiskError (Option TreeNode)) = .ok (some (.dir tn tcs)) := hw
        simp at hw
    | some (.dir m mcs) =>
      rw [hf] at hw
      have hms : m = s := by
        have := List.find?_some hf
        simpa [TreeNode.name] using this
      subst hms
      obtain ⟨pre, post, heq, hpre⟩ := findChild_decomp hf
      have hpost : ∀ z ∈ post, ¬(z.name = m) := by
        have h1 : noDupNames (TreeNode.dir m mcs :: post) = true := by
          rw [heq] at hnd
          exact noDupNames_append_right hnd
        exact noDupNames_no_match h1
      have hmem : TreeNode.dir m mcs ∈ cs := by rw [heq]; simp
      have hun : uniqNode (.dir m mcs) = true := uniqList_mem hul hmem
      rw [uniqNode, Bool.and_eq_true] at hun
      have IH := doClone_core m fn hun.1 hun.2 hw
      have hclone : cloneGo h0 m rest (fun n2 cs2 => doClone n2 cs2 (m :: rest) fn) cs
          = (cloneGo h0 m rest (fun n2 cs2 => doClone n2 cs2 (m :: rest) fn)
              (TreeNode.dir m mcs :: post)).map (fun t => pre ++ t) := by
        rw [heq]
        exact cloneGo_skip_head hpre
      constructor
      · intro tcs2 hfn
        obtain ⟨mcs2, hdc, hma⟩ := IH.1 hfn
        refine ⟨pre ++ TreeNode.dir m mcs2 :: post, ?_, ?_⟩
        · rw [doClone, hclone]
          rw [cloneGo, if_pos (show (TreeNode.dir m mcs).name = m from rfl)]
          rw [hdc, cloneGo_skip_all hpost]
          rfl
        · rw [heq]
          exact modifyA_build hpre hma
      · intro e hfn
        have hdc := IH.2 hfn
        rw [doClone, hclone]
        rw [cloneGo, if_pos (show (TreeNode.dir m mcs).name = m from rfl)]
        rw [hdc, cloneGo_skip_all hpost]
        rfl

end Webdisk

namespace Webdisk

/-- The splitter never returns an empty list. -/
theorem splitSlashAux_ne_nil (cur : List Char) (cs : List Char) :
    splitSlashAux cur cs ≠ [] := by
  induction cs generalizing cur with
  | nil => simp [splitSlashAux]
  | cons c rest ih =>
    rw [splitSlashAux]
    split
    · simp
    · exact ih (c :: cur)

/-- A character list ending in a slash splits into at least two parts. -/
theorem splitSlashAux_length_ge : ∀ (cs : List Char) (cur : List Char),
    cs.getLast? = some '/' → 2 ≤ (splitSlashAux cur cs).length
  | [], cur, h => by cases h
  | c :: rest, cur, h => by
    match rest, h with
    | [], h =>
      have hc : c = '/' := by
        simpa using h
      subst hc
      simp [splitSlashAux]
    | r :: rs, h =>
      rw [List.getLast?_cons_cons] at h
      rw [splitSlashAux]
      split
      · have h1 := splitSlashAux_ne_nil ([] : List Char) (r :: rs)
        simp only [List.length_cons, Nat.succ_le_succ_iff]
        have := List.length_pos.mpr (splitSlashAux_ne_nil [] (r :: rs))
        omega
      · exact splitSlashAux_length_ge (r :: rs) (c :: cur) h

/-- toParts never returns an empty list. -/
theorem toParts_ne_nil (p : String) : toParts p ≠ [] := by
  unfold toParts splitOnSlash
  split
  · intro hc
    have hlen := splitSlashAux_length_ge p.data []
      (by simpa [strEndsWithSlash] using ‹strEndsWithSlash p = true›)
    rw [← List.length_eq_zero] at hc
    rw [List.length_dropLast] at hc
    omega
  · exact splitSlashAux_ne_nil [] p.data

/-- Walking to a directory is independent of the message path and the
trailing-slash flag. -/
theorem getNodeLoop_dir_any {t : Option TreeNode} {segs : List String}
    {pth : String} {mbd : Bool} {m : String} {mcs : List TreeNode}
    (pth' : String) (mbd' : Bool)
    (h : getNodeLoop pth mbd t segs = .ok (some (.dir m mcs))) :
    getNodeLoop pth' mbd' t segs = .ok (some (.dir m mcs)) := by
  induction segs generalizing t with
  | nil =>
    match t with
    | none => simp [getNodeLoop] at h
    | some u =>
      unfold getNodeLoop at h ⊢
      split at h
      · cases h
        simp [TreeNode.isDir]
      · cases h
  | cons s rest ih =>
    match t with
    | none => rw [getNodeLoop_none] at h; cases h
    | some (.file a b) =>
      replace h : (Except.error (DiskError.pathInvalid pth)
          : Except DiskError (Option TreeNode)) = .ok (some (.dir m mcs)) := h
      cases h
    | some (.dir a cs) =>
      replace h : getNodeLoop pth mbd (findChild cs s) rest
          = .ok (some (.dir m mcs)) := h
      exact ih h

/-- A successful getDir exposes the walk over the path parts. -/
theorem getDir_walk {d : Disk} {p : String} {pn : String} {pcs : List TreeNode}
    (h : d.getDir p = .ok (pn, pcs)) (pth' : String) (mbd' : Bool) :
    getNodeLoop pth' mbd' (some d.root) ((toParts p).drop 1)
      = .ok (some (.dir pn pcs)) := by
  unfold Disk.getDir at h
  rw [getNode_eq_loop] at h
  match hg : getNodeLoop p (strEndsWithSlash p) (some d.root) ((toParts p).drop 1) with
  | .error e => rw [hg] at h; cases h
  | .ok none => rw [hg] at h; cases h
  | .ok (some (.file a b)) => rw [hg] at h; cases h
  | .ok (some (.dir a cs)) =>
    rw [hg] at h
    cases h
    exact getNodeLoop_dir_any pth' mbd' hg

/-- The Disk-level workhorse: under the invariant, a clone at a path whose
getDir succeeds applies the modification function once to that directory,
propagating its failure and substituting its new children at the target. -/
theorem cloneDir_core {d : Disk} {p : String} {pn : String} {pcs : List TreeNode}
    (fn : String → List TreeNode → Except DiskError (String × List TreeNode))
    (hu : d.uniq = true) (hdir : d.getDir p = .ok (pn, pcs)) :
    (∀ {pcs2 : List TreeNode}, fn pn pcs = .ok (pn, pcs2) →
       ∃ cs2, d.cloneDir p fn = .ok ⟨d.rootName, cs2⟩ ∧
         modifyA d.rootContents ((toParts p).drop 1) pcs2 = some cs2) ∧
    (∀ {e : DiskError}, fn pn pcs = .error e → d.cloneDir p fn = .error e) := by
  rw [Disk.uniq, Bool.and_eq_true] at hu
  obtain ⟨h0, segs, hsplit⟩ : ∃ h0 segs, toParts p = h0 :: segs := by
    match hq : toParts p with
    | [] => exact absurd hq (toParts_ne_nil p)
    | a :: l => exact ⟨a, l, rfl⟩
  have hw : getNodeLoop p false (some (.dir d.rootName d.rootContents)) segs
      = .ok (some (.dir pn pcs)) := by
    have := getDir_walk hdir p false
    rw [hsplit] at this
    exact this
  have core := doClone_core h0 fn hu.1 hu.2 hw
  constructor
  · intro pcs2 hfn
    obtain ⟨cs2, hdc, hma⟩ := core.1 hfn
    refine ⟨cs2, ?_, ?_⟩
    · unfold Disk.cloneDir
      rw [hsplit, hdc]
    · rw [hsplit]
      exact hma
  · intro e hfn
    have hdc := core.2 hfn
    unfold Disk.cloneDir
    rw [hsplit, hdc]

end Webdisk

namespace Webdisk

/-- The walk fails only with the invalid-path or the exists-but-not-a-directory
message about its own path. -/
theorem getNodeLoop_err_shape : ∀ {segs : List String} {t : Option TreeNode}
    {pth : String} {mbd : Bool} {e : DiskError},
    getNodeLoop pth mbd t segs = .error e →
    e = .pathInvalid pth ∨ e = .existsButNotDir pth
  | segs, none, pth, mbd, e, h => by rw [getNodeLoop_none] at h; cases h
  | [], some t, pth, mbd, e, h => by
    unfold getNodeLoop at h
    split at h
    · cases h
    · cases h
      right
      rfl
  | s :: rest, some (.file a b), pth, mbd, e, h => by
    replace h : (Except.error (DiskError.pathInvalid pth)
        : Except DiskError (Option TreeNode)) = .error e := h
    cases h
    left
    rfl
  | s :: rest, some (.dir a cs), pth, mbd, e, h => by
    replace h : getNodeLoop pth mbd (findChild cs s) rest = .error e := h
    exact getNodeLoop_err_shape h

/-- getNode fails only with the invalid-path or the exists-but-not-a-directory
message about its own path. -/
theorem getNode_err_shape {d : Disk} {p : String} {e : DiskError}
    (h : d.getNode p = .error e) :
    e = .pathInvalid p ∨ e = .existsButNotDir p := by
  rw [getNode_eq_loop] at h
  exact getNodeLoop_err_shape h

/-- One clone level fails only with a not-a-directory message or with a
failure of the recursion it was given. -/
theorem cloneGo_err_shape : ∀ {items : List TreeNode} {p0 q : String}
    {rest : List String}
    {recurse : String → List TreeNode → Except DiskError (String × List TreeNode)}
    {e : DiskError}, cloneGo p0 q rest recurse items = .error e →
    (∃ q2, e = .notADirectory q2) ∨ (∃ a b, recurse a b = .error e)
  | [], p0, q, rest, recurse, e, h => by rw [cloneGo] at h; cases h
  | .file a b :: restItems, p0, q, rest, recurse, e, h => by
    rw [cloneGo] at h
    by_cases hq : (TreeNode.file a b).name = q
    · rw [if_pos hq] at h
      cases h
      exact Or.inl ⟨_, rfl⟩
    · rw [if_neg hq] at h
      replace h : (match cloneGo p0 q rest recurse restItems with
        | .error e => (.error e : Except DiskError (List TreeNode))
        | .ok t => .ok (TreeNode.file a b :: t)) = .error e := h
      match hcl : cloneGo p0 q rest recurse restItems with
      | .error e3 => rw [hcl] at h; cases h; exact cloneGo_err_shape hcl
      | .ok t => rw [hcl] at h; cases h
  | .dir a acs :: restItems, p0, q, rest, recurse, e, h => by
    rw [cloneGo] at h
    by_cases hq : (TreeNode.dir a acs).name = q
    · rw [if_pos hq] at h
      match hdc : recurse a acs with
      | .error e2 =>
        rw [hdc] at h
        replace h : (Except.error e2 : Except DiskError (List TreeNode))
            = .error e := h
        cases h
        exact Or.inr ⟨a, acs, hdc⟩
      | .ok (n2, cs2) =>
        rw [hdc] at h
        replace h : (match cloneGo p0 q rest recurse restItems with
          | .error e => (.error e : Except DiskError (List TreeNode))
          | .ok t => .ok (TreeNode.dir n2 cs2 :: t)) = .error e := h
        match hcl : cloneGo p0 q rest recurse restItems with
        | .error e3 => rw [hcl] at h; cases h; exact cloneGo_err_shape hcl
        | .ok t => rw [hcl] at h; cases h
    · rw [if_neg hq] at h
      replace h : (match cloneGo p0 q rest recurse restItems with
        | .error e => (.error e : Except DiskError (List TreeNode))
        | .ok t => .ok (TreeNode.dir a acs :: t)) = .error e := h
      match hcl : cloneGo p0 q rest recurse restItems with
      | .error e3 => rw [hcl] at h; cases h; exact cloneGo_err_shape hcl
      | .ok t => rw [hcl] at h; cases h

/-- doCloneDirWithModification fails only with a not-a-directory message or
with a failure of the modification function. -/
theorem doClone_err_shape : ∀ {path : List String} {n : String}
    {cs : List TreeNode}
    {fn : String → List TreeNode → Except DiskError (String × List TreeNode)}
    {e : DiskError}, doClone n cs path fn = .error e →
    (∃ q, e = .notADirectory q) ∨ (∃ a b, fn a b = .error e)
  | [], n, cs, fn, e, h => by rw [doClone] at h; cases h
  | [p], n, cs, fn, e, h => by
    rw [doClone] at h
    exact Or.inr ⟨n, cs, h⟩
  | p0 :: q :: rest, n, cs, fn, e, h => by
    rw [doClone] at h
    split at h
    · cases h
      rename_i hcl
      rcases cloneGo_err_shape hcl with h1 | ⟨a, b, h1⟩
      · exact Or.inl h1
      · exact doClone_err_shape h1
    · cases h

/-- A failing cloneDir carries a not-a-directory message or a failure of the
modification function. -/
theorem cloneDir_err_shape {d : Disk} {p : String}
    {fn : String → List TreeNode → Except DiskError (String × List TreeNode)}
    {e : DiskError} (h : d.cloneDir p fn = .error e) :
    (∃ q, e = .notADirectory q) ∨ (∃ a b, fn a b = .error e) := by
  unfold Disk.cloneDir at h
  split at h
  · cases h
    exact doClone_err_shape ‹_›
  · cases h

end Webdisk

namespace Webdisk

/-- The private remove never fails with the self-move message. -/
theorem removePriv_err_not_self {d : Disk} {p : String} {e : DiskError}
    {d' : Disk} (h : d.removePriv p = .err e d') :
    ∀ q, ¬(e = .cannotMoveIntoSelf q) := by
  intro q hq
  subst hq
  unfold Disk.removePriv at h
  match hg : d.getNode p with
  | .error e0 =>
    rw [hg] at h
    replace h : Outcome.err e0 d = .err (.cannotMoveIntoSelf q) d' := h
    cases h
    rcases getNode_err_shape hg with h1 | h1 <;> cases h1
  | .ok none =>
    rw [hg] at h
    replace h : Outcome.err (.doesNotExist p) d
        = .err (.cannotMoveIntoSelf q) d' := h
    cases h
  | .ok (some u) =>
    rw [hg] at h
    replace h : (match d.cloneDir (getParentPath p)
        (fun dn dcs => .ok (dn, dcs.filter (fun c => c.name ≠ getNodeName p))) with
      | .error e => Outcome.err e d
      | .ok d1 => Outcome.ok () d1) = .err (.cannotMoveIntoSelf q) d' := h
    match hc : d.cloneDir (getParentPath p)
        (fun dn dcs => .ok (dn, dcs.filter (fun c => c.name ≠ getNodeName p))) with
    | .error e0 =>
      rw [hc] at h
      cases h
      rcases cloneDir_err_shape hc with ⟨q2, h1⟩ | ⟨a, b, h1⟩
      · cases h1
      · cases h1
    | .ok d1 => rw [hc] at h; cases h

/-- moveAndDeleteOriginal never fails with the self-move message. -/
theorem moveAndDelete_err_not_self {d : Disk} {source : TreeNode}
    {sp nn dp : String} {delOrig : Bool} {e : DiskError} {d' : Disk}
    (h : d.moveAndDeleteOriginal source sp nn dp delOrig = .err e d') :
    ∀ q, ¬(e = .cannotMoveIntoSelf q) := by
  intro q hq
  subst hq
  unfold Disk.moveAndDeleteOriginal at h
  match hc : d.cloneDir dp (fun dn dcs => .ok (dn, dcs ++ [source.withName nn])) with
  | .error e0 =>
    rw [hc] at h
    cases h
    rcases cloneDir_err_shape hc with ⟨q2, h1⟩ | ⟨a, b, h1⟩
    · cases h1
    · cases h1
  | .ok d1 =>
    rw [hc] at h
    replace h : (if delOrig then d1.removePriv sp else Outcome.ok () d1)
        = .err (.cannotMoveIntoSelf q) d' := h
    split at h
    · exact removePriv_err_not_self h q rfl
    · cases h

/-- moveToDestParent never fails with the self-move message. -/
theorem moveToDestParent_err_not_self {d : Disk} {source : TreeNode}
    {sp dp : String} {delOrig : Bool} {e : DiskError} {d' : Disk}
    (h : d.moveToDestParent source sp dp delOrig = .err e d') :
    ∀ q, ¬(e = .cannotMoveIntoSelf q) := by
  intro q hq
  subst hq
  unfold Disk.moveToDestParent at h
  match hg : d.getNode (getParentPath dp) with
  | .error e0 =>
    rw [hg] at h
    cases h
    rcases getNode_err_shape hg with h1 | h1 <;> cases h1
  | .ok none =>
    rw [hg] at h
    cases h
  | .ok (some u) =>
    rw [hg] at h
    exact moveAndDelete_err_not_self h q rfl

/-- Claim C3.  The guard of _moveDir rejects a move exactly when the source
resolves and the destination string starts with the source string followed by
a slash (the source's own trailing slash serving as that slash when present):
the rejection is anchored at a path-segment boundary, and a destination
equal to the source (with no trailing slash) is not rejected. -/
theorem claim_C3 :
    (∀ (d : Disk) (src dest : String) (force delOrig : Bool),
      (∃ d', d.moveDirAux src dest force delOrig
          = .err (.cannotMoveIntoSelf src) d')
        ↔ ((∃ node, d.getNode src = .ok (some node)) ∧ isChild src dest = true))
    ∧ isChild "/pics" "/pics/large-pics" = true
    ∧ isChild "/pics" "/pics-backup" = false
    ∧ isChild "/pics" "/pics" = false := by
  refine ⟨?_, rfl, rfl, rfl⟩
  intro d src dest force delOrig
  constructor
  · rintro ⟨d', h⟩
    unfold Disk.moveDirAux at h
    match hg : d.getNode src with
    | .error e0 =>
      rw [hg] at h
      replace h : Outcome.err e0 d = .err (.cannotMoveIntoSelf src) d' := h
      cases h
      rcases getNode_err_shape hg with h1 | h1 <;> cases h1
    | .ok none =>
      rw [hg] at h
      replace h : Outcome.err (.doesNotExist src) d
          = .err (.cannotMoveIntoSelf src) d' := h
      cases h
    | .ok (some source) =>
      rw [hg] at h
      by_cases hic : isChild src dest = true
      · exact ⟨⟨source, rfl⟩, hic⟩
      · exfalso
        replace h : (if isChild src dest = true then
            Outcome.err (.cannotMoveIntoSelf src) d
          else
            match source with
            | .file _ _ => Outcome.err (.isAFile src) d
            | .dir _ _ =>
              match d.getNode dest with
              | .error e => .err e d
              | .ok (some dest') =>
                if dest'.isDir then
                  d.moveAndDeleteOriginal source src source.name dest delOrig
                else if force then
                  match d.removePriv dest with
                  | .err e d1 => .err e d1
                  | .ok _ d1 => d1.moveToDestParent source src dest delOrig
                else .err (.alreadyExists dest) d
              | .ok none => d.moveToDestParent source src dest delOrig)
            = .err (.cannotMoveIntoSelf src) d' := h
        rw [if_neg hic] at h
        match source, h with
        | .file a b, h => cases h
        | .dir a acs, h =>
          match hg2 : d.getNode dest with
          | .error e0 =>
            rw [hg2] at h
            cases h
            rcases getNode_err_shape hg2 with h1 | h1 <;> cases h1
          | .ok (some dest') =>
            rw [hg2] at h
            replace h : (if dest'.isDir then
                d.moveAndDeleteOriginal (.dir a acs) src
                  (TreeNode.dir a acs).name dest delOrig
              else if force then
                match d.removePriv dest with
                | .err e d1 => .err e d1
                | .ok _ d1 =>
                  d1.moveToDestParent (.dir a acs) src dest delOrig
              else .err (.alreadyExists dest) d)
                = .err (.cannotMoveIntoSelf src) d' := h
            split at h
            · exact moveAndDelete_err_not_self h src rfl
            · split at h
              · match hr : d.removePriv dest with
                | .err e2 d1 =>
                  rw [hr] at h
                  cases h
                  exact removePriv_err_not_self hr src rfl
                | .ok u d1 =>
                  rw [hr] at h
                  exact moveToDestParent_err_not_self h src rfl
              · cases h
          | .ok none =>
            rw [hg2] at h
            exact moveToDestParent_err_not_self h src rfl
  · rintro ⟨⟨node, hg⟩, hic⟩
    refine ⟨d, ?_⟩
    unfold Disk.moveDirAux
    rw [hg]
    show (if isChild src dest = true then
        Outcome.err (.cannotMoveIntoSelf src) d else _)
      = .err (.cannotMoveIntoSelf src) d
    rw [if_pos hic]

/-- Counterexample to claim C3 as frozen: moving a directory onto exactly its
own path is not rejected by the self-move guard; the call succeeds and the
directory is lost. -/
theorem claim_C3_counterexample :
    (Disk.mk "" [.dir "pics" [.dir "large-pics" []]]).moveDir
        "/pics" "/pics" false
      = .ok () (Disk.mk "" []) := rfl

end Webdisk

namespace Webdisk

mutual

/-- The specification-side pre-order listing: each entry is the child's path,
a directory's path standing immediately before the block of its own
children's paths. -/
def preorderPaths : List TreeNode → String → List String
  | [], _ => []
  | x :: rest, path => preorderOne x path ++ preorderPaths rest path

/-- One child's block in the specification-side pre-order listing. -/
def preorderOne : TreeNode → String → List String
  | .dir n cs, path => (path ++ "/" ++ n) :: preorderPaths cs (path ++ "/" ++ n)
  | .file n _, path => [path ++ "/" ++ n]

end

/-- The reduce of readDirRecursive peels its accumulator. -/
theorem readFold_append : ∀ (cs : List TreeNode) (acc : List String)
    (path : String), readFold acc cs path = acc ++ readFold [] cs path
  | [], acc, path => by rw [readFold, readFold, List.append_nil]
  | x :: rest, acc, path => by
    rw [readFold, readFold_append rest (acc ++ readInner x path) path]
    rw [show readFold [] (x :: rest) path
        = readFold ([] ++ readInner x path) rest path from rfl]
    rw [List.nil_append, readFold_append rest (readInner x path) path]
    rw [List.append_assoc]

/-- The reduce of readDirRecursive computes the pre-order listing. -/
theorem readFold_preorder : ∀ (cs : List TreeNode) (path : String),
    readFold [] cs path = preorderPaths cs path
  | [], path => rfl
  | x :: rest, path => by
    rw [show readFold [] (x :: rest) path
        = readFold ([] ++ readInner x path) rest path from rfl]
    rw [List.nil_append, readFold_append rest (readInner x path) path]
    rw [readFold_preorder rest path, preorderPaths]
    congr 1
    match x with
    | .file n c => rfl
    | .dir n mcs =>
      rw [readInner, preorderOne, readFold_preorder mcs (path ++ "/" ++ n)]

/-- In the pre-order listing, every directory child's path is followed
immediately by the block of its own children's paths. -/
theorem preorderPaths_block : ∀ {cs : List TreeNode} {n : String}
    {ccs : List TreeNode} (path : String), TreeNode.dir n ccs ∈ cs →
    ∃ l1 l2, preorderPaths cs path
      = l1 ++ (path ++ "/" ++ n)
          :: (preorderPaths ccs (path ++ "/" ++ n) ++ l2) := by
  intro cs
  induction cs with
  | nil => intro n ccs path h; cases h
  | cons x rest ih =>
    intro n ccs path h
    rcases List.mem_cons.mp h with rfl | h'
    · refine ⟨[], preorderPaths rest path, ?_⟩
      rw [preorderPaths, preorderOne]
      rfl
    · obtain ⟨l1, l2, hl⟩ := ih path h'
      refine ⟨preorderOne x path ++ l1, l2, ?_⟩
      rw [preorderPaths, hl, List.append_assoc]

/-- Claim C4: for a path resolving to a directory, readDir lists the
immediate children's paths (path ++ "/" ++ name) in the children's order,
and readDirRecursive lists all descendants in pre-order: each directory's
path stands immediately before the paths of its own children. -/
theorem claim_C4 (d : Disk) (path : String) (pn : String)
    (pcs : List TreeNode) (h : d.getDir path = .ok (pn, pcs)) :
    d.readDir path = .ok (pcs.map (fun x => path ++ "/" ++ x.name)) ∧
    d.readDirRecursive path = .ok (preorderPaths pcs path) ∧
    ∀ (n : String) (ccs : List TreeNode), TreeNode.dir n ccs ∈ pcs →
      ∃ l1 l2, d.readDirRecursive path
        = .ok (l1 ++ (path ++ "/" ++ n)
            :: (preorderPaths ccs (path ++ "/" ++ n) ++ l2)) := by
  refine ⟨?_, ?_, ?_⟩
  · unfold Disk.readDir
    rw [h]
  · unfold Disk.readDirRecursive
    rw [h]
    show Except.ok (readFold [] pcs path) = _
    rw [readFold_preorder]
  · intro n ccs hmem
    obtain ⟨l1, l2, hl⟩ := preorderPaths_block path hmem
    refine ⟨l1, l2, ?_⟩
    unfold Disk.readDirRecursive
    rw [h]
    show Except.ok (readFold [] pcs path) = _
    rw [readFold_preorder, hl]

/-- The example tree of the repository README. -/
def fixtureDisk : Disk := ⟨"/",
  [ .dir "docs" [],
    .dir "pics"
      [ .file "asterix.jpg" "FFh D8h asterix",
        .file "obelix.jpg" "FFh D8h obelix",
        .dir "large-pics"
          [ .file "asterix-large.jpg" "FFh D8h asterix",
            .file "obelix-large.jpg" "FFh D8h obelix",
            .dir "backup"
              [ .file "asterix-large-bak.jpg" "FFh D8h asterix",
                .file "obelix-large-bak.jpg" "FFh D8h obelix" ] ] ] ]⟩

/-- Witness for claim C4 on the README tree. -/
theorem claim_C4_witness :
    fixtureDisk.readDir "/pics"
      = .ok ["/pics/asterix.jpg", "/pics/obelix.jpg", "/pics/large-pics"] ∧
    fixtureDisk.readDirRecursive "/pics"
      = .ok ["/pics/asterix.jpg", "/pics/obelix.jpg", "/pics/large-pics",
          "/pics/large-pics/asterix-large.jpg",
          "/pics/large-pics/obelix-large.jpg",
          "/pics/large-pics/backup",
          "/pics/large-pics/backup/asterix-large-bak.jpg",
          "/pics/large-pics/backup/obelix-large-bak.jpg"] := by
  have h := claim_C4 fixtureDisk "/pics" "pics"
    [ .file "asterix.jpg" "FFh D8h asterix",
      .file "obelix.jpg" "FFh D8h obelix",
      .dir "large-pics"
        [ .file "asterix-large.jpg" "FFh D8h asterix",
          .file "obelix-large.jpg" "FFh D8h obelix",
          .dir "backup"
            [ .file "asterix-large-bak.jpg" "FFh D8h asterix",
              .file "obelix-large-bak.jpg" "FFh D8h obelix" ] ] ] rfl
  exact ⟨h.1.trans rfl, h.2.1.trans rfl⟩

end Webdisk

namespace Webdisk

/-- A successful walk splits at its last segment: the walk reaches a
directory and the node is its child of that name. -/
theorem getNodeLoop_snoc : ∀ {a : List String} {s pth : String} {mbd : Bool}
    {t node : TreeNode},
    getNodeLoop pth mbd (some t) (a ++ [s]) = .ok (some node) →
    ∃ m mcs,
      (∀ pth' mbd', getNodeLoop pth' mbd' (some t) a = .ok (some (.dir m mcs)))
      ∧ findChild mcs s = some node
  | [], s, pth, mbd, t, node, h => by
    match t with
    | .file a b =>
      replace h : (Except.error (DiskError.pathInvalid pth)
          : Except DiskError (Option TreeNode)) = .ok (some node) := h
      cases h
    | .dir m mcs =>
      replace h : getNodeLoop pth mbd (findChild mcs s) []
          = .ok (some node) := h
      match hf : findChild mcs s with
      | none => rw [hf, getNodeLoop_none] at h; cases h
      | some u =>
        rw [hf] at h
        unfold getNodeLoop at h
        split at h
        · cases h
          exact ⟨m, mcs, fun pth' mbd' => by
            unfold getNodeLoop
            simp [TreeNode.isDir], hf⟩
        · cases h
  | p :: ps, s, pth, mbd, t, node, h => by
    match t with
    | .file a b =>
      replace h : (Except.error (DiskError.pathInvalid pth)
          : Except DiskError (Option TreeNode)) = .ok (some node) := h
      cases h
    | .dir m mcs =>
      replace h : getNodeLoop pth mbd (findChild mcs p) (ps ++ [s])
          = .ok (some node) := h
      match hf : findChild mcs p with
      | none => rw [hf, getNodeLoop_none] at h; cases h
      | some u =>
        rw [hf] at h
        obtain ⟨m2, mcs2, hwalk, hfind⟩ := getNodeLoop_snoc h
        refine ⟨m2, mcs2, fun pth' mbd' => ?_, hfind⟩
        replace hwalk := hwalk pth' mbd'
        show getNodeLoop pth' mbd' (findChild mcs p) ps = _
        rw [hf]
        exact hwalk

/-- Filtering a name out makes it unfindable. -/
theorem findChild_filter_ne (cs : List TreeNode) (nm : String) :
    findChild (cs.filter (fun c => c.name ≠ nm)) nm = none := by
  unfold findChild
  rw [List.find?_eq_none]
  intro x hx
  have := (List.mem_filter.mp hx).2
  simp only [decide_eq_true_eq] at this ⊢
  exact this

/-- Claim C8 (amended at the root path).  A path resolving to absence is a
no-op success under force and a does-not-exist failure otherwise; a path
with at least one segment and a cleanly splitting parent path that resolves
to a node is detached: exactly the sibling carrying the leaf name disappears
from its parent, and the path no longer resolves.  The root path "/"
resolves to the root but is never detached: its leaf name is "", and the
clone applies the removal filter to the root's own children, so the call
succeeds for either force value and deletes exactly the root children named
"" — a no-op precisely on trees without such a child. -/
theorem claim_C8 (d : Disk) (path : String) :
    (d.getNode path = .ok none →
      d.remove path true = .ok () d ∧
      d.remove path false = .err (.doesNotExist path) d) ∧
    (∀ node : TreeNode, d.uniq = true → d.getNode path = .ok (some node) →
      2 ≤ (toParts path).length →
      toParts (getParentPath path) = (toParts path).dropLast →
      strEndsWithSlash (getParentPath path) = false →
      ∀ force : Bool, ∃ d' pn pcs,
        d.remove path force = .ok () d' ∧
        d.getDir (getParentPath path) = .ok (pn, pcs) ∧
        findChild pcs (getNodeName path) = some node ∧
        d'.getDir (getParentPath path)
          = .ok (pn, pcs.filter (fun c => c.name ≠ getNodeName path)) ∧
        d'.getNode path = .ok none) ∧
    (path = "/" → ∀ force : Bool,
      d.remove path force = .ok ()
        (Disk.mk d.rootName
          (d.rootContents.filter (fun c2 => c2.name ≠ "")))) := by
  refine ⟨?_, ?_, ?_⟩
  · intro h
    constructor <;>
      · unfold Disk.remove
        rw [h]
        rfl
  · intro node hu hnode hlen halign hslash force
    have hppne : getParentPath path ≠ "/" := by
      intro hc
      rw [hc] at hslash
      cases hslash
    obtain ⟨p0, segs, hsplit⟩ : ∃ p0 segs, toParts path = p0 :: segs := by
      match hq : toParts path with
      | [] => exact absurd hq (toParts_ne_nil path)
      | a :: l => exact ⟨a, l, rfl⟩
    have hsegsne : segs ≠ [] := by
      intro hc
      rw [hsplit, hc] at hlen
      simp at hlen
    have hsegs : segs.dropLast ++ [segs.getLast hsegsne] = segs :=
      List.dropLast_append_getLast hsegsne
    have hleaf : getNodeName path = segs.getLast hsegsne := by
      unfold getNodeName
      rw [hsplit]
      conv => lhs; rw [← hsegs]
      rw [show p0 :: (segs.dropLast ++ [segs.getLast hsegsne])
          = (p0 :: segs.dropLast) ++ [segs.getLast hsegsne] from rfl]
      rw [List.getLast?_concat]
      rfl
    have hwalk0 : getNodeLoop path (strEndsWithSlash path) (some d.root)
        (segs.dropLast ++ [segs.getLast hsegsne]) = .ok (some node) := by
      rw [hsegs]
      have := hnode
      rw [getNode_eq_loop, hsplit] at this
      exact this
    obtain ⟨pn, pcs, hwalkp, hfind⟩ := getNodeLoop_snoc hwalk0
    have hparts_pp : (toParts (getParentPath path)).drop 1 = segs.dropLast := by
      rw [halign, hsplit]
      conv => lhs; rw [← hsegs]
      rw [show p0 :: (segs.dropLast ++ [segs.getLast hsegsne])
          = (p0 :: segs.dropLast) ++ [segs.getLast hsegsne] from rfl]
      rw [List.dropLast_concat]
      rfl
    have hgetdir : d.getDir (getParentPath path) = .ok (pn, pcs) := by
      unfold Disk.getDir
      rw [getNode_eq_loop]
      rw [hparts_pp, hwalkp (getParentPath path)
        (strEndsWithSlash (getParentPath path))]
    have hcore := cloneDir_core
      (fun dn dcs => .ok (dn, dcs.filter (fun c => c.name ≠ getNodeName path)))
      hu hgetdir
    obtain ⟨cs2, hclone, hma⟩ := hcore.1 rfl
    have hremove : d.remove path force = .ok () ⟨d.rootName, cs2⟩ := by
      unfold Disk.remove
      rw [hnode, hclone]
    rw [hparts_pp] at hma
    have hwalkp_false : getNodeLoop path false
        (some (.dir d.rootName d.rootContents)) segs.dropLast
        = .ok (some (.dir pn pcs)) := hwalkp path false
    have hwalk2 := modifyA_walk hma hwalkp_false
    refine ⟨⟨d.rootName, cs2⟩, pn, pcs, hremove, hgetdir, by
      rw [hleaf]; exact hfind, ?_, ?_⟩
    · unfold Disk.getDir
      rw [getNode_eq_loop]
      rw [hparts_pp]
      have := hwalk2 [] (getParentPath path) (strEndsWithSlash (getParentPath path))
      rw [List.append_nil] at this
      show (match getNodeLoop (getParentPath path)
          (strEndsWithSlash (getParentPath path))
          (some (Disk.mk d.rootName cs2).root) segs.dropLast with
        | .error e => Except.error e
        | .ok none => Except.error (.doesNotExist (getParentPath path))
        | .ok (some (.file _ _)) =>
            Except.error (.notADirectory (getParentPath path))
        | .ok (some (.dir n cs)) => Except.ok (n, cs)) = _
      rw [show (Disk.mk d.rootName cs2).root = .dir d.rootName cs2 from rfl, this]
      unfold getNodeLoop
      simp [TreeNode.isDir]
    · rw [getNode_eq_loop]
      rw [hsplit]
      show getNodeLoop path (strEndsWithSlash path)
        (some (.dir d.rootName cs2)) segs = .ok none
      conv => lhs; rw [← hsegs]
      rw [hwalk2 [segs.getLast hsegsne] path (strEndsWithSlash path)]
      show getNodeLoop path (strEndsWithSlash path)
        (findChild (pcs.filter (fun c => c.name ≠ getNodeName path))
          (segs.getLast hsegsne)) [] = .ok none
      rw [← hleaf, findChild_filter_ne, getNodeLoop_none]
  · intro hp force
    subst hp
    rfl

/-- Counterexample to claim C8 as frozen: the root path resolves (to the
root directory), yet remove never detaches the resolved node.  On a tree
whose root has no child named "" the call succeeds leaving the tree
unchanged, the root still resolving; on a tree whose root does have a child
named "" — a state the engine itself reaches via createDir("/") — the call
deletes that child instead of the resolved root, changing the tree. -/
theorem claim_C8_counterexample :
    (Disk.mk "" [.file "x" "1"]).getNode "/"
        = .ok (some (.dir "" [.file "x" "1"])) ∧
    (Disk.mk "" [.file "x" "1"]).remove "/" true
        = .ok () (Disk.mk "" [.file "x" "1"]) ∧
    (Disk.mk "" [.file "x" "1"]).remove "/" false
        = .ok () (Disk.mk "" [.file "x" "1"]) ∧
    (Disk.mk "" [.dir "" []]).getNode "/"
        = .ok (some (.dir "" [.dir "" []])) ∧
    (Disk.mk "" [.dir "" []]).remove "/" true = .ok () (Disk.mk "" []) ∧
    (Disk.mk "" [.dir "" []]).remove "/" false = .ok () (Disk.mk "" []) ∧
    (Disk.mk "" [.dir "" []]).size ≠ (Disk.mk "" ([] : List TreeNode)).size :=
  ⟨rfl, rfl, rfl, rfl, rfl, rfl, by decide⟩

/-- Witness for claim C8 on the README tree, including the root clause. -/
theorem claim_C8_witness :
    (∃ d' pn pcs,
      fixtureDisk.remove "/pics/large-pics" true = .ok () d' ∧
      fixtureDisk.getDir (getParentPath "/pics/large-pics") = .ok (pn, pcs) ∧
      findChild pcs (getNodeName "/pics/large-pics")
        = some (.dir "large-pics"
            [ .file "asterix-large.jpg" "FFh D8h asterix",
              .file "obelix-large.jpg" "FFh D8h obelix",
              .dir "backup"
                [ .file "asterix-large-bak.jpg" "FFh D8h asterix",
                  .file "obelix-large-bak.jpg" "FFh D8h obelix" ] ]) ∧
      d'.getDir (getParentPath "/pics/large-pics")
        = .ok (pn, pcs.filter
            (fun c => c.name ≠ getNodeName "/pics/large-pics")) ∧
      d'.getNode "/pics/large-pics" = .ok none) ∧
    fixtureDisk.remove "/" true = .ok ()
      (Disk.mk fixtureDisk.rootName
        (fixtureDisk.rootContents.filter (fun c2 => c2.name ≠ ""))) := by
  have h := (claim_C8 fixtureDisk "/pics/large-pics").2.1
    (.dir "large-pics"
      [ .file "asterix-large.jpg" "FFh D8h asterix",
        .file "obelix-large.jpg" "FFh D8h obelix",
        .dir "backup"
          [ .file "asterix-large-bak.jpg" "FFh D8h asterix",
            .file "obelix-large-bak.jpg" "FFh D8h obelix" ] ])
    rfl rfl (by decide) rfl rfl true
  exact ⟨h, (claim_C8 fixtureDisk "/").2.2 rfl true⟩

end Webdisk

namespace Webdisk

/-- After a clone whose effect is recorded by modifyA, the same path
resolves to the directory with the new children. -/
theorem cloneDir_ok_getDir {d : Disk} {p : String} {pn : String}
    {pcs pcs2 cs2 : List TreeNode}
    (hdir : d.getDir p = .ok (pn, pcs))
    (hma : modifyA d.rootContents ((toParts p).drop 1) pcs2 = some cs2) :
    (Disk.mk d.rootName cs2).getDir p = .ok (pn, pcs2) := by
  have hwalk : getNodeLoop p false (some (.dir d.rootName d.rootContents))
      ((toParts p).drop 1) = .ok (some (.dir pn pcs)) := getDir_walk hdir p false
  have h2 := modifyA_walk hma hwalk [] p (strEndsWithSlash p)
  rw [List.append_nil] at h2
  unfold Disk.getDir
  rw [getNode_eq_loop]
  show (match getNodeLoop p (strEndsWithSlash p) (some (.dir d.rootName cs2))
      ((toParts p).drop 1) with
    | .error e => Except.error e
    | .ok none => Except.error (.doesNotExist p)
    | .ok (some (.file _ _)) => Except.error (.notADirectory p)
    | .ok (some (.dir n cs)) => Except.ok (n, cs)) = _
  rw [h2]
  unfold getNodeLoop
  simp [TreeNode.isDir]

/-- Claim C10: an overwriting createFile does not keep the replaced file's
position: the old entry is filtered out and the new node appended at the
end, so readDir of the parent lists it last. -/
theorem claim_C10 (d : Disk) (path c : String) (pn : String)
    (pcs : List TreeNode)
    (hu : d.uniq = true)
    (hvalid : strEndsWithSlash path = false)
    (hdir : d.getDir (getParentPath path) = .ok (pn, pcs))
    (_hex : ∃ c0, findChild pcs (getNodeName path)
        = some (.file (getNodeName path) c0)) :
    ∃ d', d.createFile path c true = .ok () d' ∧
      d'.readDir (getParentPath path)
        = .ok ((pcs.filter (fun x => x.name ≠ getNodeName path)).map
            (fun x => getParentPath path ++ "/" ++ x.name)
          ++ [getParentPath path ++ "/" ++ getNodeName path]) := by
  have hfn : ((fun dn dcs =>
      match getFilename path with
      | Except.error e => Except.error e
      | Except.ok filename =>
        if (findChild dcs filename).isNone || true then
          Except.ok (dn, dcs.filter (fun x => x.name ≠ filename)
             ++ [TreeNode.file filename c])
        else Except.error (DiskError.alreadyExists path))
      : String → List TreeNode → Except DiskError (String × List TreeNode))
        pn pcs
      = Except.ok (pn, pcs.filter (fun x => x.name ≠ getNodeName path)
          ++ [TreeNode.file (getNodeName path) c]) := by
    show (match getFilename path with
      | Except.error e => Except.error e
      | Except.ok filename =>
        if (findChild pcs filename).isNone || true then
          Except.ok (pn, pcs.filter (fun (x : TreeNode) => x.name ≠ filename)
             ++ [TreeNode.file filename c])
        else Except.error (DiskError.alreadyExists path)) = _
    rw [show getFilename path = .ok (getNodeName path) from by
      unfold getFilename
      rw [if_neg (by rw [hvalid]; intro hc; cases hc)]]
    simp
  have hcore := cloneDir_core ((fun dn dcs =>
      match getFilename path with
      | Except.error e => Except.error e
      | Except.ok filename =>
        if (findChild dcs filename).isNone || true then
          Except.ok (dn, dcs.filter (fun x => x.name ≠ filename)
             ++ [TreeNode.file filename c])
        else Except.error (DiskError.alreadyExists path))
      : String → List TreeNode → Except DiskError (String × List TreeNode))
      hu hdir
  obtain ⟨cs2, hclone, hma⟩ := hcore.1 hfn
  refine ⟨⟨d.rootName, cs2⟩, ?_, ?_⟩
  · unfold Disk.createFile
    rw [if_pos (show isValidFilePath path = true from by
      unfold isValidFilePath
      rw [hvalid]
      rfl)]
    rw [hdir, hclone]
  · have hgd := cloneDir_ok_getDir hdir hma
    unfold Disk.readDir
    rw [hgd]
    show Except.ok (List.map (fun x => getParentPath path ++ "/" ++ x.name)
      (pcs.filter (fun x => x.name ≠ getNodeName path)
        ++ [TreeNode.file (getNodeName path) c])) = _
    rw [List.map_append]
    rfl

/-- Witness for claim C10: overwriting the first of three files moves it to
the end of the listing. -/
theorem claim_C10_witness :
    ∃ d', (Disk.mk "" [.dir "d"
        [.file "a" "1", .file "b" "2", .file "c" "3"]]).createFile
          "/d/a" "9" true = .ok () d' ∧
      d'.readDir (getParentPath "/d/a")
        = .ok ((([.file "a" "1", .file "b" "2", .file "c" "3"]
            : List TreeNode).filter
              (fun x => x.name ≠ getNodeName "/d/a")).map
            (fun x => getParentPath "/d/a" ++ "/" ++ x.name)
          ++ [getParentPath "/d/a" ++ "/" ++ getNodeName "/d/a"]) :=
  claim_C10 (Disk.mk "" [.dir "d" [.file "a" "1", .file "b" "2", .file "c" "3"]])
    "/d/a" "9" "d" [.file "a" "1", .file "b" "2", .file "c" "3"]
    rfl rfl rfl ⟨"1", rfl⟩

end Webdisk

namespace Webdisk

/-- The freshly appended child is found after filtering its name out. -/
theorem findChild_filter_append (cs : List TreeNode) (nm : String)
    (x : TreeNode) (hx : x.name = nm) :
    findChild (cs.filter (fun c => c.name ≠ nm) ++ [x]) nm = some x := by
  unfold findChild
  induction cs with
  | nil => simp [List.find?, hx]
  | cons y ys ih =>
    by_cases hy : y.name = nm
    · rw [show (y :: ys).filter (fun c => c.name ≠ nm)
          = ys.filter (fun c => c.name ≠ nm) from by simp [List.filter, hy]]
      exact ih
    · rw [show (y :: ys).filter (fun c => c.name ≠ nm)
          = y :: ys.filter (fun c => c.name ≠ nm) from by simp [List.filter, hy]]
      rw [List.cons_append, List.find?_cons]
      simp only [hy, decide_eq_true_eq, if_neg]
      exact ih

/-- Claim C1, amended: the round-trip holds for paths splitting cleanly into
at least one segment (in particular paths without empty segments), on trees
satisfying the sibling-uniqueness invariant. -/
theorem claim_C1 (d : Disk) (path c : String) (pn : String)
    (pcs : List TreeNode)
    (hu : d.uniq = true)
    (hvalid : strEndsWithSlash path = false)
    (hlen : 2 ≤ (toParts path).length)
    (halign : toParts (getParentPath path) = (toParts path).dropLast)
    (hdir : d.getDir (getParentPath path) = .ok (pn, pcs)) :
    ∃ d', d.createFile path c true = .ok () d' ∧ d'.readFile path = .ok c := by
  have hfn : ((fun dn dcs =>
      match getFilename path with
      | Except.error e => Except.error e
      | Except.ok filename =>
        if (findChild dcs filename).isNone || true then
          Except.ok (dn, dcs.filter (fun x => x.name ≠ filename)
             ++ [TreeNode.file filename c])
        else Except.error (DiskError.alreadyExists path))
      : String → List TreeNode → Except DiskError (String × List TreeNode))
        pn pcs
      = Except.ok (pn, pcs.filter (fun x => x.name ≠ getNodeName path)
          ++ [TreeNode.file (getNodeName path) c]) := by
    show (match getFilename path with
      | Except.error e => Except.error e
      | Except.ok filename =>
        if (findChild pcs filename).isNone || true then
          Except.ok (pn, pcs.filter (fun (x : TreeNode) => x.name ≠ filename)
             ++ [TreeNode.file filename c])
        else Except.error (DiskError.alreadyExists path)) = _
    rw [show getFilename path = .ok (getNodeName path) from by
      unfold getFilename
      rw [if_neg (by rw [hvalid]; intro hc; cases hc)]]
    simp
  have hcore := cloneDir_core ((fun dn dcs =>
      match getFilename path with
      | Except.error e => Except.error e
      | Except.ok filename =>
        if (findChild dcs filename).isNone || true then
          Except.ok (dn, dcs.filter (fun x => x.name ≠ filename)
             ++ [TreeNode.file filename c])
        else Except.error (DiskError.alreadyExists path))
      : String → List TreeNode → Except DiskError (String × List TreeNode))
      hu hdir
  obtain ⟨cs2, hclone, hma⟩ := hcore.1 hfn
  refine ⟨⟨d.rootName, cs2⟩, ?_, ?_⟩
  · unfold Disk.createFile
    rw [if_pos (show isValidFilePath path = true from by
      unfold isValidFilePath
      rw [hvalid]
      rfl)]
    rw [hdir, hclone]
  · obtain ⟨p0, segs, hsplit⟩ : ∃ p0 segs, toParts path = p0 :: segs := by
      match hq : toParts path with
      | [] => exact absurd hq (toParts_ne_nil path)
      | a :: l => exact ⟨a, l, rfl⟩
    have hsegsne : segs ≠ [] := by
      intro hc
      rw [hsplit, hc] at hlen
      simp at hlen
    have hsegs : segs.dropLast ++ [segs.getLast hsegsne] = segs :=
      List.dropLast_append_getLast hsegsne
    have hleaf : getNodeName path = segs.getLast hsegsne := by
      unfold getNodeName
      rw [hsplit]
      conv => lhs; rw [← hsegs]
      rw [show p0 :: (segs.dropLast ++ [segs.getLast hsegsne])
          = (p0 :: segs.dropLast) ++ [segs.getLast hsegsne] from rfl]
      rw [List.getLast?_concat]
      rfl
    have hparts_pp : (toParts (getParentPath path)).drop 1 = segs.dropLast := by
      rw [halign, hsplit]
      conv => lhs; rw [← hsegs]
      rw [show p0 :: (segs.dropLast ++ [segs.getLast hsegsne])
          = (p0 :: segs.dropLast) ++ [segs.getLast hsegsne] from rfl]
      rw [List.dropLast_concat]
      rfl
    rw [hparts_pp] at hma
    have hwalkp : getNodeLoop path false
        (some (.dir d.rootName d.rootContents)) segs.dropLast
        = .ok (some (.dir pn pcs)) := by
      have := getDir_walk hdir path false
      rw [hparts_pp] at this
      exact this
    have hwalk2 := modifyA_walk hma hwalkp [segs.getLast hsegsne]
      path (strEndsWithSlash path)
    unfold Disk.readFile
    rw [if_pos (show isValidFilePath path = true from by
      unfold isValidFilePath
      rw [hvalid]
      rfl)]
    rw [getNode_eq_loop, hsplit]
    show (match getNodeLoop path (strEndsWithSlash path)
        (some (.dir d.rootName cs2)) segs with
      | .error e => Except.error e
      | .ok none => Except.error (.doesNotExist path)
      | .ok (some (.dir _ _)) => Except.error (.isADirectory path)
      | .ok (some (.file _ c2)) => Except.ok c2) = Except.ok c
    conv => lhs; rw [← hsegs]
    rw [hwalk2]
    show (match getNodeLoop path (strEndsWithSlash path)
        (findChild (pcs.filter (fun x => x.name ≠ getNodeName path)
          ++ [TreeNode.file (getNodeName path) c])
          (segs.getLast hsegsne)) [] with
      | .error e => Except.error e
      | .ok none => Except.error (.doesNotExist path)
      | .ok (some (.dir _ _)) => Except.error (.isADirectory path)
      | .ok (some (.file _ c2)) => Except.ok c2) = Except.ok c
    rw [← hleaf, findChild_filter_append pcs (getNodeName path)
      (TreeNode.file (getNodeName path) c) rfl]
    unfold getNodeLoop
    rw [hvalid]
    rfl

/-- Counterexample to claim C1 as frozen: the path "/a//x" does not end in a
slash and its parent path resolves to an existing directory, yet after a
successful createFile the readFile of the same path fails: the empty segment
is collapsed by the write and taken literally by the read. -/
theorem claim_C1_counterexample :
    strEndsWithSlash "/a//x" = false ∧
    (Disk.mk "" [.dir "a" []]).getDir (getParentPath "/a//x")
      = .ok ("a", []) ∧
    (Disk.mk "" [.dir "a" []]).createFile "/a//x" "c" true
      = .ok () (Disk.mk "" [.dir "a" [.file "x" "c"]]) ∧
    (Disk.mk "" [.dir "a" [.file "x" "c"]]).readFile "/a//x"
      = .error (.doesNotExist "/a//x") :=
  ⟨rfl, rfl, rfl, rfl⟩

/-- Witness for claim C1 on the README tree. -/
theorem claim_C1_witness :
    ∃ d', fixtureDisk.createFile "/docs/report.txt" "Pluto is a planet." true
        = .ok () d' ∧
      d'.readFile "/docs/report.txt" = .ok "Pluto is a planet." :=
  claim_C1 fixtureDisk "/docs/report.txt" "Pluto is a planet." "docs" []
    rfl rfl (by decide) rfl rfl

end Webdisk

namespace Webdisk

/-- Claim C5, amended: the outcome of createFile is fully determined by the
trailing-slash test, the parent lookup and the conflict test, but a parent
that exists as a non-directory is reported by forwarding the parent lookup
failure (NotADirectory or, for an intermediate file, an invalid-path error),
not as PathNotFound. -/
theorem claim_C5 (d : Disk) (path c : String) (ow : Bool)
    (hu : d.uniq = true) :
    (strEndsWithSlash path = true →
      d.createFile path c ow = .err (.invalidPath path) d) ∧
    (strEndsWithSlash path = false →
      (∀ e, d.getDir (getParentPath path) = .error e →
        d.createFile path c ow = .err e d) ∧
      (∀ pn pcs, d.getDir (getParentPath path) = .ok (pn, pcs) →
        ((findChild pcs (getNodeName path)).isSome = true → ow = false →
          d.createFile path c ow = .err (.alreadyExists path) d) ∧
        (((findChild pcs (getNodeName path)).isNone || ow) = true →
          ∃ d', d.createFile path c ow = .ok () d' ∧
            d'.getDir (getParentPath path)
              = .ok (pn, pcs.filter (fun x => x.name ≠ getNodeName path)
                  ++ [.file (getNodeName path) c])))) := by
  constructor
  · intro hends
    unfold Disk.createFile
    rw [if_neg (by unfold isValidFilePath; rw [hends]; simp)]
  · intro hvalid
    have hval : isValidFilePath path = true := by
      unfold isValidFilePath; rw [hvalid]; rfl
    have hgf : getFilename path = .ok (getNodeName path) := by
      unfold getFilename
      rw [if_neg (by rw [hvalid]; intro hc; cases hc)]
    constructor
    · intro e hgd
      unfold Disk.createFile
      rw [if_pos hval, hgd]
    · intro pn pcs hdir
      constructor
      · intro hsome how
        have hfn : ((fun dn dcs =>
            match getFilename path with
            | Except.error e => Except.error e
            | Except.ok filename =>
              if (findChild dcs filename).isNone || ow then
                Except.ok (dn, dcs.filter (fun x => x.name ≠ filename)
                   ++ [TreeNode.file filename c])
              else Except.error (DiskError.alreadyExists path))
            : String → List TreeNode →
                Except DiskError (String × List TreeNode)) pn pcs
            = Except.error (DiskError.alreadyExists path) := by
          show (match getFilename path with
            | Except.error e => Except.error e
            | Except.ok filename =>
              if (findChild pcs filename).isNone || ow then
                Except.ok (pn,
                  pcs.filter (fun (x : TreeNode) => x.name ≠ filename)
                   ++ [TreeNode.file filename c])
              else Except.error (DiskError.alreadyExists path)) = _
          rw [hgf]
          show (if ((findChild pcs (getNodeName path)).isNone || ow) = true then
              Except.ok (pn,
                pcs.filter (fun (x : TreeNode) => x.name ≠ getNodeName path)
                 ++ [TreeNode.file (getNodeName path) c])
            else Except.error (DiskError.alreadyExists path))
            = Except.error (DiskError.alreadyExists path)
          obtain ⟨x, hf⟩ := Option.isSome_iff_exists.mp hsome
          rw [hf, how]
          simp
        have hclone := (cloneDir_core ((fun dn dcs =>
            match getFilename path with
            | Except.error e => Except.error e
            | Except.ok filename =>
              if (findChild dcs filename).isNone || ow then
                Except.ok (dn, dcs.filter (fun x => x.name ≠ filename)
                   ++ [TreeNode.file filename c])
              else Except.error (DiskError.alreadyExists path))
            : String → List TreeNode →
                Except DiskError (String × List TreeNode))
            hu hdir).2 hfn
        unfold Disk.createFile
        rw [if_pos hval, hdir, hclone]
      · intro hcond
        have hfn : ((fun dn dcs =>
            match getFilename path with
            | Except.error e => Except.error e
            | Except.ok filename =>
              if (findChild dcs filename).isNone || ow then
                Except.ok (dn, dcs.filter (fun x => x.name ≠ filename)
                   ++ [TreeNode.file filename c])
              else Except.error (DiskError.alreadyExists path))
            : String → List TreeNode →
                Except DiskError (String × List TreeNode)) pn pcs
            = Except.ok (pn,
                pcs.filter (fun x => x.name ≠ getNodeName path)
                  ++ [TreeNode.file (getNodeName path) c]) := by
          show (match getFilename path with
            | Except.error e => Except.error e
            | Except.ok filename =>
              if (findChild pcs filename).isNone || ow then
                Except.ok (pn,
                  pcs.filter (fun (x : TreeNode) => x.name ≠ filename)
                   ++ [TreeNode.file filename c])
              else Except.error (DiskError.alreadyExists path)) = _
          rw [hgf]
          show (if ((findChild pcs (getNodeName path)).isNone || ow) = true then
              Except.ok (pn,
                pcs.filter (fun (x : TreeNode) => x.name ≠ getNodeName path)
                 ++ [TreeNode.file (getNodeName path) c])
            else Except.error (DiskError.alreadyExists path))
            = Except.ok (pn,
                pcs.filter (fun (x : TreeNode) => x.name ≠ getNodeName path)
                  ++ [TreeNode.file (getNodeName path) c])
          rw [if_pos hcond]
        obtain ⟨cs2, hclone, hma⟩ := (cloneDir_core ((fun dn dcs =>
            match getFilename path with
            | Except.error e => Except.error e
            | Except.ok filename =>
              if (findChild dcs filename).isNone || ow then
                Except.ok (dn, dcs.filter (fun x => x.name ≠ filename)
                   ++ [TreeNode.file filename c])
              else Except.error (DiskError.alreadyExists path))
            : String → List TreeNode →
                Except DiskError (String × List TreeNode))
            hu hdir).1 hfn
        refine ⟨⟨d.rootName, cs2⟩, ?_, cloneDir_ok_getDir hdir hma⟩
        unfold Disk.createFile
        rw [if_pos hval, hdir, hclone]

/-- Counterexample to claim C5 as frozen: the parent of "/f/x.txt" exists as
a file, so the parent directory does not resolve, yet the failure is
NotADirectory on the parent path, not PathNotFound. -/
theorem claim_C5_counterexample :
    strEndsWithSlash "/f/x.txt" = false ∧
    (Disk.mk "" [.file "f" ""]).uniq = true ∧
    (Disk.mk "" [.file "f" ""]).getNode (getParentPath "/f/x.txt")
      = .ok (some (.file "f" "")) ∧
    (Disk.mk "" [.file "f" ""]).createFile "/f/x.txt" "c" false
      = .err (.notADirectory "/f") (Disk.mk "" [.file "f" ""]) ∧
    (∀ q, DiskError.notADirectory "/f" ≠ DiskError.doesNotExist q) :=
  ⟨rfl, rfl, rfl, rfl, fun _ h => DiskError.noConfusion h⟩

/-- Witness for claim C5 on the README tree: the success branch. -/
theorem claim_C5_witness :
    ∃ d', fixtureDisk.createFile "/docs/new.txt" "n" false = .ok () d' ∧
      d'.getDir (getParentPath "/docs/new.txt")
        = .ok ("docs", [TreeNode.file "new.txt" "n"]) := by
  obtain ⟨d', h1, h2⟩ :=
    (((claim_C5 fixtureDisk "/docs/new.txt" "n" false rfl).2 rfl).2
      "docs" [] rfl).2 rfl
  exact ⟨d', h1, h2⟩

end Webdisk

namespace Webdisk

/-- Claim C6, amended: when the parent of the path resolves to a directory
holding a child with the path's leaf name, createDir fails with the
already-a-file conflict if that child is a file (whatever ignoreIfExists is),
fails with AlreadyExists if it is a directory and ignoreIfExists is false,
and is a success leaving the tree unchanged if it is a directory and
ignoreIfExists is true.  (The root path "/" escapes this taxonomy: its parent
resolves to the root itself, whose children do not contain the root.) -/
theorem claim_C6 (d : Disk) (path : String) (ii pr : Bool)
    (pn : String) (pcs : List TreeNode) (x : TreeNode)
    (hpar : d.getNode (getParentPath path) = .ok (some (.dir pn pcs)))
    (hx : findChild pcs (getNodeName path) = some x) :
    (x.isDir = false → d.createDir path ii pr = .err (.alreadyAFile path) d) ∧
    (x.isDir = true → ii = false →
      d.createDir path ii pr = .err (.alreadyExists path) d) ∧
    (x.isDir = true → ii = true → d.createDir path ii pr = .ok () d) := by
  have hcont : d.createDir path ii pr =
      (match createDirCont d path ii pcs with
        | .ok _ d' => Outcome.ok () d'
        | .err e d' => Outcome.err e d') := by
    unfold Disk.createDir
    have haux : Disk.createDirAux ((toParts path).length + 1) d path ii pr
        = createDirCont d path ii pcs := by
      show (match d.getNode (getParentPath path) with
        | .error e => Outcome.err e d
        | .ok (some (.dir _ pcs0)) => createDirCont d path ii pcs0
        | .ok _ =>
          if pr then
            match Disk.createDirAux (toParts path).length d
                (getParentPath path) false true with
            | .err e d' => Outcome.err e d'
            | .ok (_, pcs0) d' => createDirCont d' path ii pcs0
          else Outcome.err (.invalidPath path) d) = _
      rw [hpar]
    rw [haux]
  cases x with
  | file n c =>
    refine ⟨?_, ?_, ?_⟩
    · intro _
      rw [hcont]
      unfold createDirCont
      rw [hx]
    · intro hdir _
      exact Bool.noConfusion hdir
    · intro hdir _
      exact Bool.noConfusion hdir
  | dir n cs =>
    refine ⟨?_, ?_, ?_⟩
    · intro hf
      exact Bool.noConfusion hf
    · intro _ hii
      rw [hcont]
      unfold createDirCont
      rw [hx, hii]
      rfl
    · intro _ hii
      rw [hcont]
      unfold createDirCont
      rw [hx, hii]
      rfl

/-- Counterexample to claim C6 as frozen: the target "/" exists as a
directory (the root) and ignoreIfExists is false, so the claim demands an
AlreadyExists failure; instead the call succeeds, and even mutates the tree
by appending a directory named "" at the root. -/
theorem claim_C6_counterexample :
    (Disk.mk "" []).getNode "/" = .ok (some (.dir "" [])) ∧
    (Disk.mk "" []).createDir "/" false false
      = .ok () (Disk.mk "" [.dir "" []]) :=
  ⟨rfl, rfl⟩

/-- Witness for claim C6 on the README tree: "/docs" exists as a directory,
so createDir is a no-op success with ignoreIfExists and an AlreadyExists
failure without. -/
theorem claim_C6_witness :
    fixtureDisk.createDir "/docs" true false = .ok () fixtureDisk ∧
    fixtureDisk.createDir "/docs" false false
      = .err (.alreadyExists "/docs") fixtureDisk :=
  ⟨(claim_C6 fixtureDisk "/docs" true false fixtureDisk.rootName
      fixtureDisk.rootContents (.dir "docs" []) rfl rfl).2.2 rfl rfl,
   (claim_C6 fixtureDisk "/docs" false false fixtureDisk.rootName
      fixtureDisk.rootContents (.dir "docs" []) rfl rfl).2.1 rfl rfl⟩

end Webdisk

namespace Webdisk

/-- Claim C2, amended: a failing createFile, remove, removeFile, removeDir or
private remove leaves the held tree exactly as it was (the reads perform no
assignment at all); the move and copy family and createDir are excluded,
since their failures can surface after an earlier assignment has replaced
the tree. -/
theorem claim_C2 (d : Disk) (path c : String) (b : Bool) (e : DiskError)
    (d' : Disk) :
    (d.createFile path c b = .err e d' → d' = d) ∧
    (d.remove path b = .err e d' → d' = d) ∧
    (d.removeFile path b = .err e d' → d' = d) ∧
    (d.removeDir path b = .err e d' → d' = d) ∧
    (d.removePriv path = .err e d' → d' = d) :=
  ⟨createFile_err_unchanged d path c b e d',
   remove_err_unchanged d path b e d',
   removeFile_err_unchanged d path b e d',
   removeDir_err_unchanged d path b e d',
   removePriv_err_unchanged d path e d'⟩

/-- Counterexample to claim C2 as frozen: on a tree satisfying the
sibling-uniqueness invariant, a failing moveFile leaves behind a tree into
which the copy of the source has already been inserted: the node count grows
from 3 to 4 although the call reports an error. -/
theorem claim_C2_counterexample :
    (Disk.mk "" [.dir "a" [.dir "x" [.file "x" ""]]]).uniq = true ∧
    (Disk.mk "" [.dir "a" [.dir "x" [.file "x" ""]]]).moveFile
        "/a/x/x" "/a" false
      = .err (.notADirectory "/a/x")
          (Disk.mk "" [.dir "a" [.dir "x" [.file "x" ""], .file "x" ""]]) ∧
    (Disk.mk "" [.dir "a" [.dir "x" [.file "x" ""], .file "x" ""]]).size
      ≠ (Disk.mk "" [.dir "a" [.dir "x" [.file "x" ""]]]).size :=
  ⟨rfl, rfl, by decide⟩

/-- Witness for claim C2: a concrete failing remove, with the tree returned
unchanged. -/
theorem claim_C2_witness :
    (Disk.mk "" [.file "f" "c"]).remove "/g" false
      = .err (.doesNotExist "/g") (Disk.mk "" [.file "f" "c"]) ∧
    (Disk.mk "" [.file "f" "c"]) = (Disk.mk "" [.file "f" "c"]) :=
  ⟨rfl, (claim_C2 (Disk.mk "" [.file "f" "c"]) "/g" "c" false
    (.doesNotExist "/g") (Disk.mk "" [.file "f" "c"])).2.1 rfl⟩

end Webdisk

namespace Webdisk

/-- Inversion of getDir: a successful lookup means getNode found that
directory. -/
theorem getDir_inv {d : Disk} {p pn : String} {pcs : List TreeNode}
    (h : d.getDir p = .ok (pn, pcs)) :
    d.getNode p = .ok (some (.dir pn pcs)) := by
  unfold Disk.getDir at h
  match hg : d.getNode p with
  | .error e => rw [hg] at h; cases h
  | .ok none => rw [hg] at h; cases h
  | .ok (some (.file a b)) => rw [hg] at h; cases h
  | .ok (some (.dir a cs)) => rw [hg] at h; cases h; rfl

/-- Claim C7, amended: a copy passing the self-move guard — automatic for a
file source, and meaning for a directory source that the destination is not
anchored under the source — appends the source as a new child under the
source's own leaf name when the destination resolves to an existing
directory, and inserts it under the destination's leaf name in the
destination's parent when the destination does not exist but its parent
does; a directory copy whose destination is anchored under the source fails
with the self-move error instead of inserting.  Moves do not satisfy the
insertion property: the deletion of the original that follows the insertion
can delete the inserted node itself. -/
theorem claim_C7 (d : Disk) (sourcePath destPath : String) (f : Bool)
    (hu : d.uniq = true) :
    (∀ sn sc, d.getNode sourcePath = .ok (some (.file sn sc)) →
      (∀ dn dcs, d.getDir destPath = .ok (dn, dcs) →
        ∃ d1, d.copyFile sourcePath destPath f = .ok () d1 ∧
          d1.getDir destPath = .ok (dn, dcs ++ [.file sn sc])) ∧
      (∀ pn pcs, d.getNode destPath = .ok none →
        d.getDir (getParentPath destPath) = .ok (pn, pcs) →
        ∃ d1, d.copyFile sourcePath destPath f = .ok () d1 ∧
          d1.getDir (getParentPath destPath)
            = .ok (pn, pcs ++ [.file (getNodeName destPath) sc]))) ∧
    (∀ sn scs, d.getNode sourcePath = .ok (some (.dir sn scs)) →
      (isChild sourcePath destPath = true →
        d.copyDir sourcePath destPath f
          = .err (.cannotMoveIntoSelf sourcePath) d) ∧
      (isChild sourcePath destPath = false →
        (∀ dn dcs, d.getDir destPath = .ok (dn, dcs) →
          ∃ d1, d.copyDir sourcePath destPath f = .ok () d1 ∧
            d1.getDir destPath = .ok (dn, dcs ++ [.dir sn scs])) ∧
        (∀ pn pcs, d.getNode destPath = .ok none →
          d.getDir (getParentPath destPath) = .ok (pn, pcs) →
          ∃ d1, d.copyDir sourcePath destPath f = .ok () d1 ∧
            d1.getDir (getParentPath destPath)
              = .ok (pn, pcs ++ [.dir (getNodeName destPath) scs])))) := by
  constructor
  · intro sn sc hsrc
    have h1 : d.copyFile sourcePath destPath f
        = (match d.getNode destPath with
           | .error e => .err e d
           | .ok (some dest) =>
             if dest.isDir then
               d.moveAndDeleteOriginal (.file sn sc) sourcePath sn destPath
                 false
             else if f then
               match d.removePriv destPath with
               | .err e d1 => .err e d1
               | .ok _ d1 =>
                 d1.moveToDestParent (.file sn sc) sourcePath destPath false
             else .err (.alreadyExists destPath) d
           | .ok none =>
             d.moveToDestParent (.file sn sc) sourcePath destPath false) := by
      unfold Disk.copyFile Disk.moveFileAux
      rw [hsrc]
      rfl
    constructor
    · intro dn dcs hdd
      have hdnode := getDir_inv hdd
      have h2 : d.copyFile sourcePath destPath f
          = d.moveAndDeleteOriginal (.file sn sc) sourcePath sn destPath
              false := by
        rw [h1, hdnode]
        rfl
      obtain ⟨cs2, hclone, hma⟩ := (cloneDir_core
        ((fun dn2 dcs2 =>
            .ok (dn2, dcs2 ++ [(TreeNode.file sn sc).withName sn]))
          : String → List TreeNode →
              Except DiskError (String × List TreeNode))
        hu hdd).1 rfl
      refine ⟨⟨d.rootName, cs2⟩, ?_, cloneDir_ok_getDir hdd hma⟩
      rw [h2]
      unfold Disk.moveAndDeleteOriginal
      rw [hclone]
      rfl
    · intro pn pcs hnone hpdir
      have hpnode := getDir_inv hpdir
      have h2 : d.copyFile sourcePath destPath f
          = d.moveAndDeleteOriginal (.file sn sc) sourcePath
              (getNodeName destPath) (getParentPath destPath) false := by
        rw [h1, hnone]
        unfold Disk.moveToDestParent
        rw [hpnode]
      obtain ⟨cs2, hclone, hma⟩ := (cloneDir_core
        ((fun dn2 dcs2 =>
            .ok (dn2, dcs2
              ++ [(TreeNode.file sn sc).withName (getNodeName destPath)]))
          : String → List TreeNode →
              Except DiskError (String × List TreeNode))
        hu hpdir).1 rfl
      refine ⟨⟨d.rootName, cs2⟩, ?_, cloneDir_ok_getDir hpdir hma⟩
      rw [h2]
      unfold Disk.moveAndDeleteOriginal
      rw [hclone]
      rfl
  · intro sn scs hsrc
    have h1 : d.copyDir sourcePath destPath f
        = (if isChild sourcePath destPath then
             Outcome.err (.cannotMoveIntoSelf sourcePath) d
           else match d.getNode destPath with
             | .error e => .err e d
             | .ok (some dest) =>
               if dest.isDir then
                 d.moveAndDeleteOriginal (.dir sn scs) sourcePath sn destPath
                   false
               else if f then
                 match d.removePriv destPath with
                 | .err e d1 => .err e d1
                 | .ok _ d1 =>
                   d1.moveToDestParent (.dir sn scs) sourcePath destPath
                     false
               else .err (.alreadyExists destPath) d
             | .ok none =>
               d.moveToDestParent (.dir sn scs) sourcePath destPath
                 false) := by
      unfold Disk.copyDir Disk.moveDirAux
      rw [hsrc]
      rfl
    constructor
    · intro hg
      rw [h1, hg]
      rfl
    · intro hg
      have h1g : d.copyDir sourcePath destPath f
          = (match d.getNode destPath with
             | .error e => .err e d
             | .ok (some dest) =>
               if dest.isDir then
                 d.moveAndDeleteOriginal (.dir sn scs) sourcePath sn destPath
                   false
               else if f then
                 match d.removePriv destPath with
                 | .err e d1 => .err e d1
                 | .ok _ d1 =>
                   d1.moveToDestParent (.dir sn scs) sourcePath destPath
                     false
               else .err (.alreadyExists destPath) d
             | .ok none =>
               d.moveToDestParent (.dir sn scs) sourcePath destPath
                 false) := by
        rw [h1, hg]
        rfl
      constructor
      · intro dn dcs hdd
        have hdnode := getDir_inv hdd
        have h2 : d.copyDir sourcePath destPath f
            = d.moveAndDeleteOriginal (.dir sn scs) sourcePath sn destPath
                false := by
          rw [h1g, hdnode]
          rfl
        obtain ⟨cs2, hclone, hma⟩ := (cloneDir_core
          ((fun dn2 dcs2 =>
              .ok (dn2, dcs2 ++ [(TreeNode.dir sn scs).withName sn]))
            : String → List TreeNode →
                Except DiskError (String × List TreeNode))
          hu hdd).1 rfl
        refine ⟨⟨d.rootName, cs2⟩, ?_, cloneDir_ok_getDir hdd hma⟩
        rw [h2]
        unfold Disk.moveAndDeleteOriginal
        rw [hclone]
        rfl
      · intro pn pcs hnone hpdir
        have hpnode := getDir_inv hpdir
        have h2 : d.copyDir sourcePath destPath f
            = d.moveAndDeleteOriginal (.dir sn scs) sourcePath
                (getNodeName destPath) (getParentPath destPath) false := by
          rw [h1g, hnone]
          unfold Disk.moveToDestParent
          rw [hpnode]
        obtain ⟨cs2, hclone, hma⟩ := (cloneDir_core
          ((fun dn2 dcs2 =>
              .ok (dn2, dcs2
                ++ [(TreeNode.dir sn scs).withName (getNodeName destPath)]))
            : String → List TreeNode →
                Except DiskError (String × List TreeNode))
          hu hpdir).1 rfl
        refine ⟨⟨d.rootName, cs2⟩, ?_, cloneDir_ok_getDir hpdir hma⟩
        rw [h2]
        unfold Disk.moveAndDeleteOriginal
        rw [hclone]
        rfl

/-- Counterexample to claim C7 as frozen: moving "/a/x" into the existing
directory "/a" succeeds but the file is not a child of "/a" afterwards: the
insertion appends a second child named "x" and the deletion of the original
then filters out both, so the move erases the file entirely. -/
theorem claim_C7_counterexample :
    (Disk.mk "" [.dir "a" [.file "x" "c"]]).uniq = true ∧
    (Disk.mk "" [.dir "a" [.file "x" "c"]]).moveFile "/a/x" "/a" false
      = .ok () (Disk.mk "" [.dir "a" []]) ∧
    (Disk.mk "" [.dir "a" []]).readDir "/a" = .ok [] :=
  ⟨rfl, rfl, rfl⟩

/-- Witness for claim C7 on the README tree: a file copy and a directory
copy into "/docs" keep their own leaf names, and a directory copy into the
source's own subtree fails with the self-move error. -/
theorem claim_C7_witness :
    (∃ d1, fixtureDisk.copyFile "/pics/asterix.jpg" "/docs" false
        = .ok () d1 ∧
      d1.getDir "/docs"
        = .ok ("docs", [.file "asterix.jpg" "FFh D8h asterix"])) ∧
    (∃ d1, fixtureDisk.copyDir "/pics/large-pics" "/docs" false
        = .ok () d1 ∧
      d1.getDir "/docs"
        = .ok ("docs", [.dir "large-pics"
            [ .file "asterix-large.jpg" "FFh D8h asterix",
              .file "obelix-large.jpg" "FFh D8h obelix",
              .dir "backup"
                [ .file "asterix-large-bak.jpg" "FFh D8h asterix",
                  .file "obelix-large-bak.jpg" "FFh D8h obelix" ] ]])) ∧
    fixtureDisk.copyDir "/pics" "/pics/large-pics" false
      = .err (.cannotMoveIntoSelf "/pics") fixtureDisk := by
  refine ⟨?_, ?_, ?_⟩
  · obtain ⟨d1, h1, h2⟩ := ((claim_C7 fixtureDisk "/pics/asterix.jpg"
      "/docs" false rfl).1 "asterix.jpg" "FFh D8h asterix" rfl).1
      "docs" [] rfl
    exact ⟨d1, h1, h2⟩
  · obtain ⟨d1, h1, h2⟩ := (((claim_C7 fixtureDisk "/pics/large-pics"
      "/docs" false rfl).2 "large-pics"
      [ .file "asterix-large.jpg" "FFh D8h asterix",
        .file "obelix-large.jpg" "FFh D8h obelix",
        .dir "backup"
          [ .file "asterix-large-bak.jpg" "FFh D8h asterix",
            .file "obelix-large-bak.jpg" "FFh D8h obelix" ] ]
      rfl).2 rfl).1 "docs" [] rfl
    exact ⟨d1, h1, h2⟩
  · exact ((claim_C7 fixtureDisk "/pics" "/pics/large-pics" false rfl).2
      "pics"
      [ .file "asterix.jpg" "FFh D8h asterix",
        .file "obelix.jpg" "FFh D8h obelix",
        .dir "large-pics"
          [ .file "asterix-large.jpg" "FFh D8h asterix",
            .file "obelix-large.jpg" "FFh D8h obelix",
            .dir "backup"
              [ .file "asterix-large-bak.jpg" "FFh D8h asterix",
                .file "obelix-large-bak.jpg" "FFh D8h obelix" ] ] ]
      rfl).1 rfl

end Webdisk

namespace Webdisk

/-- A test that fails on every element of a list keeps failing on a
filtered sublist. -/
theorem any_filter_false {q : TreeNode → Bool} {cs : List TreeNode}
    (h : cs.any q = false) (p : TreeNode → Bool) :
    (cs.filter p).any q = false := by
  induction cs with
  | nil => rfl
  | cons x xs ih =>
    simp only [List.any_cons, Bool.or_eq_false_iff] at h
    by_cases hp : p x = true
    · rw [List.filter_cons_of_pos hp]
      simp only [List.any_cons, h.1, ih h.2, Bool.or_self]
    · rw [List.filter_cons_of_neg (by simp [hp])]
      exact ih h.2

/-- Filtering keeps sibling names pairwise distinct. -/
theorem noDupNames_filter {cs : List TreeNode} (p : TreeNode → Bool)
    (h : noDupNames cs = true) : noDupNames (cs.filter p) = true := by
  induction cs with
  | nil => rfl
  | cons x xs ih =>
    simp only [noDupNames, Bool.and_eq_true, Bool.not_eq_true'] at h
    by_cases hp : p x = true
    · rw [List.filter_cons_of_pos hp]
      simp only [noDupNames, Bool.and_eq_true, Bool.not_eq_true']
      exact ⟨any_filter_false h.1 p, ih h.2⟩
    · rw [List.filter_cons_of_neg (by simp [hp])]
      exact ih h.2

/-- Filtering keeps the recursive invariant of every member. -/
theorem uniqList_filter {cs : List TreeNode} (p : TreeNode → Bool)
    (h : uniqList cs = true) : uniqList (cs.filter p) = true := by
  induction cs with
  | nil => rfl
  | cons x xs ih =>
    simp only [uniqList, Bool.and_eq_true] at h
    by_cases hp : p x = true
    · rw [List.filter_cons_of_pos hp]
      simp only [uniqList, Bool.and_eq_true]
      exact ⟨h.1, ih h.2⟩
    · rw [List.filter_cons_of_neg (by simp [hp])]
      exact ih h.2

/-- After filtering a name out, no element carries that name. -/
theorem any_name_filter (cs : List TreeNode) (nm : String) :
    (cs.filter (fun x => x.name ≠ nm)).any (fun y => y.name = nm)
      = false := by
  induction cs with
  | nil => rfl
  | cons x xs ih =>
    by_cases hx : x.name = nm
    · rw [List.filter_cons_of_neg (by simp [hx])]
      exact ih
    · rw [List.filter_cons_of_pos (by simp [hx])]
      simp only [List.any_cons, ih, Bool.or_false]
      simp [hx]

/-- Appending a freshly named node keeps sibling names pairwise distinct. -/
theorem noDupNames_concat (cs : List TreeNode) (y : TreeNode)
    (h1 : noDupNames cs = true)
    (h2 : cs.any (fun x => x.name = y.name) = false) :
    noDupNames (cs ++ [y]) = true := by
  induction cs with
  | nil => simp [noDupNames]
  | cons x xs ih =>
    simp only [List.any_cons, Bool.or_eq_false_iff] at h2
    simp only [noDupNames, Bool.and_eq_true, Bool.not_eq_true'] at h1
    simp only [List.cons_append, noDupNames, Bool.and_eq_true,
      Bool.not_eq_true', List.append_eq]
    refine ⟨?_, ih h1.2 h2.2⟩
    rw [List.any_append]
    simp only [List.any_cons, List.any_nil, Bool.or_false, h1.1,
      Bool.false_or]
    exact decide_eq_false (fun heq => of_decide_eq_false h2.1 heq.symm)

/-- The children of a directory reached by getDir on an
invariant-satisfying tree satisfy the invariant themselves. -/
theorem getDir_uniq {d : Disk} {p pn : String} {pcs : List TreeNode}
    (hu : d.uniq = true) (hdir : d.getDir p = .ok (pn, pcs)) :
    noDupNames pcs = true ∧ uniqList pcs = true := by
  have hw := getDir_walk hdir p false
  have hroot : uniqNode d.root = true := by
    rw [Disk.uniq] at hu
    exact hu
  have htgt := getNodeLoop_target_uniq hw hroot
  rw [show uniqNode (.dir pn pcs) = (noDupNames pcs && uniqList pcs)
    from rfl, Bool.and_eq_true] at htgt
  exact htgt

/-- A clone whose modification keeps the modified sibling list invariant
yields an invariant-satisfying tree. -/
theorem clone_step_uniq {d : Disk} {p : String} {pn : String}
    {pcs pcs2 : List TreeNode}
    (fn : String → List TreeNode → Except DiskError (String × List TreeNode))
    (hu : d.uniq = true)
    (hdir : d.getDir p = .ok (pn, pcs))
    (hfn : fn pn pcs = .ok (pn, pcs2))
    (hn2 : noDupNames pcs2 = true) (hl2 : uniqList pcs2 = true) :
    ∃ cs2, d.cloneDir p fn = .ok ⟨d.rootName, cs2⟩ ∧
      (Disk.mk d.rootName cs2).uniq = true := by
  obtain ⟨cs2, hclone, hma⟩ := (cloneDir_core fn hu hdir).1 hfn
  refine ⟨cs2, hclone, ?_⟩
  rw [Disk.uniq] at hu
  rw [Bool.and_eq_true] at hu
  have := modifyA_uniq hma hu.1 hu.2 hn2 hl2
  rw [Disk.uniq]
  rw [Bool.and_eq_true]
  exact this

end Webdisk

namespace Webdisk

/-- Claim C9, amended: on a tree with pairwise distinct sibling names, every
successful createFile, remove, removeFile, removeDir or private remove whose
parent path resolves to a directory yields a tree with pairwise distinct
sibling names again; moves and copies are excluded, since inserting into a
directory that already holds a same-named child duplicates that name. -/
theorem claim_C9 (d : Disk) (path c : String) (b : Bool)
    (pn : String) (pcs : List TreeNode)
    (hu : d.uniq = true)
    (hdir : d.getDir (getParentPath path) = .ok (pn, pcs)) :
    (∀ d', d.createFile path c b = .ok () d' → d'.uniq = true) ∧
    (∀ d', d.remove path b = .ok () d' → d'.uniq = true) ∧
    (∀ d', d.removeFile path b = .ok () d' → d'.uniq = true) ∧
    (∀ d', d.removeDir path b = .ok () d' → d'.uniq = true) ∧
    (∀ d', d.removePriv path = .ok () d' → d'.uniq = true) := by
  have hflt := clone_step_uniq
    ((fun dn dcs => Except.ok (dn,
        dcs.filter (fun c2 => c2.name ≠ getNodeName path)))
      : String → List TreeNode → Except DiskError (String × List TreeNode))
    hu hdir rfl
    (noDupNames_filter _ (getDir_uniq hu hdir).1)
    (uniqList_filter _ (getDir_uniq hu hdir).2)
  obtain ⟨fcs2, hfclone, hfcu⟩ := hflt
  refine ⟨?_, ?_, ?_, ?_, ?_⟩
  · intro d' h
    cases hv : isValidFilePath path with
    | false =>
      unfold Disk.createFile at h
      rw [hv] at h
      replace h : Outcome.err (.invalidPath path) d = Outcome.ok () d' := h
      cases h
    | true =>
      have hends : strEndsWithSlash path = false := by
        cases hse : strEndsWithSlash path with
        | false => rfl
        | true =>
          unfold isValidFilePath at hv
          rw [hse] at hv
          cases hv
      have hgf : getFilename path = .ok (getNodeName path) := by
        unfold getFilename
        rw [if_neg (by rw [hends]; intro hc; cases hc)]
      unfold Disk.createFile at h
      rw [hv, hdir] at h
      replace h : (match d.cloneDir (getParentPath path) (fun dn dcs =>
          match getFilename path with
          | Except.error e => Except.error e
          | Except.ok filename =>
            if (findChild dcs filename).isNone || b then
              Except.ok (dn, dcs.filter (fun x => x.name ≠ filename)
                 ++ [TreeNode.file filename c])
            else Except.error (DiskError.alreadyExists path)) with
        | .error e => Outcome.err e d
        | .ok d2 => Outcome.ok () d2) = Outcome.ok () d' := h
      cases hcond : (findChild pcs (getNodeName path)).isNone || b with
      | false =>
        have hfn : ((fun dn dcs =>
            match getFilename path with
            | Except.error e => Except.error e
            | Except.ok filename =>
              if (findChild dcs filename).isNone || b then
                Except.ok (dn, dcs.filter (fun x => x.name ≠ filename)
                   ++ [TreeNode.file filename c])
              else Except.error (DiskError.alreadyExists path))
            : String → List TreeNode →
                Except DiskError (String × List TreeNode)) pn pcs
            = Except.error (DiskError.alreadyExists path) := by
          show (match getFilename path with
            | Except.error e => Except.error e
            | Except.ok filename =>
              if (findChild pcs filename).isNone || b then
                Except.ok (pn,
                  pcs.filter (fun (x : TreeNode) => x.name ≠ filename)
                   ++ [TreeNode.file filename c])
              else Except.error (DiskError.alreadyExists path)) = _
          rw [hgf]
          show (if ((findChild pcs (getNodeName path)).isNone || b) = true
              then Except.ok (pn,
                pcs.filter (fun (x : TreeNode) =>
                  x.name ≠ getNodeName path)
                 ++ [TreeNode.file (getNodeName path) c])
              else Except.error (DiskError.alreadyExists path))
            = Except.error (DiskError.alreadyExists path)
          rw [hcond]
          rfl
        have hce := (cloneDir_core ((fun dn dcs =>
            match getFilename path with
            | Except.error e => Except.error e
            | Except.ok filename =>
              if (findChild dcs filename).isNone || b then
                Except.ok (dn, dcs.filter (fun x => x.name ≠ filename)
                   ++ [TreeNode.file filename c])
              else Except.error (DiskError.alreadyExists path))
            : String → List TreeNode →
                Except DiskError (String × List TreeNode))
          hu hdir).2 hfn
        rw [hce] at h
        replace h : Outcome.err (DiskError.alreadyExists path) d
            = Outcome.ok () d' := h
        cases h
      | true =>
        have hfn : ((fun dn dcs =>
            match getFilename path with
            | Except.error e => Except.error e
            | Except.ok filename =>
              if (findChild dcs filename).isNone || b then
                Except.ok (dn, dcs.filter (fun x => x.name ≠ filename)
                   ++ [TreeNode.file filename c])
              else Except.error (DiskError.alreadyExists path))
            : String → List TreeNode →
                Except DiskError (String × List TreeNode)) pn pcs
            = Except.ok (pn,
                pcs.filter (fun x => x.name ≠ getNodeName path)
                  ++ [TreeNode.file (getNodeName path) c]) := by
          show (match getFilename path with
            | Except.error e => Except.error e
            | Except.ok filename =>
              if (findChild pcs filename).isNone || b then
                Except.ok (pn,
                  pcs.filter (fun (x : TreeNode) => x.name ≠ filename)
                   ++ [TreeNode.file filename c])
              else Except.error (DiskError.alreadyExists path)) = _
          rw [hgf]
          show (if ((findChild pcs (getNodeName path)).isNone || b) = true
              then Except.ok (pn,
                pcs.filter (fun (x : TreeNode) =>
                  x.name ≠ getNodeName path)
                 ++ [TreeNode.file (getNodeName path) c])
              else Except.error (DiskError.alreadyExists path))
            = Except.ok (pn,
                pcs.filter (fun (x : TreeNode) =>
                  x.name ≠ getNodeName path)
                  ++ [TreeNode.file (getNodeName path) c])
          rw [if_pos hcond]
        have hn2 : noDupNames (pcs.filter
            (fun x => x.name ≠ getNodeName path)
            ++ [TreeNode.file (getNodeName path) c]) = true :=
          noDupNames_concat _ _
            (noDupNames_filter _ (getDir_uniq hu hdir).1)
            (any_name_filter pcs (getNodeName path))
        have hl2 : uniqList (pcs.filter
            (fun x => x.name ≠ getNodeName path)
            ++ [TreeNode.file (getNodeName path) c]) = true := by
          rw [uniqList_append,
            uniqList_filter _ (getDir_uniq hu hdir).2]
          rfl
        obtain ⟨cs2, hclone, hcu⟩ := clone_step_uniq ((fun dn dcs =>
            match getFilename path with
            | Except.error e => Except.error e
            | Except.ok filename =>
              if (findChild dcs filename).isNone || b then
                Except.ok (dn, dcs.filter (fun x => x.name ≠ filename)
                   ++ [TreeNode.file filename c])
              else Except.error (DiskError.alreadyExists path))
            : String → List TreeNode →
                Except DiskError (String × List TreeNode))
          hu hdir hfn hn2 hl2
        rw [hclone] at h
        replace h : Outcome.ok () (Disk.mk d.rootName cs2)
            = Outcome.ok () d' := h
        cases h
        exact hcu
  · intro d' h
    unfold Disk.remove at h
    cases hg : d.getNode path with
    | error e =>
      rw [hg] at h
      replace h : Outcome.err e d = Outcome.ok () d' := h
      cases h
    | ok o =>
      cases o with
      | none =>
        rw [hg] at h
        replace h : (if b then Outcome.ok () d
            else Outcome.err (.doesNotExist path) d) = Outcome.ok () d' := h
        cases hb : b with
        | false =>
          rw [hb] at h
          replace h : Outcome.err (.doesNotExist path) d
              = Outcome.ok () d' := h
          cases h
        | true =>
          rw [hb] at h
          replace h : Outcome.ok () d = Outcome.ok () d' := h
          cases h
          exact hu
      | some node =>
        rw [hg] at h
        replace h : (match d.cloneDir (getParentPath path)
            (fun dn dcs => Except.ok (dn,
              dcs.filter (fun c2 => c2.name ≠ getNodeName path))) with
          | .error e => Outcome.err e d
          | .ok d2 => Outcome.ok () d2) = Outcome.ok () d' := h
        rw [hfclone] at h
        replace h : Outcome.ok () (Disk.mk d.rootName fcs2)
            = Outcome.ok () d' := h
        cases h
        exact hfcu
  · intro d' h
    unfold Disk.removeFile at h
    cases hg : d.getNode path with
    | error e =>
      rw [hg] at h
      replace h : Outcome.err e d = Outcome.ok () d' := h
      cases h
    | ok o =>
      cases o with
      | none =>
        rw [hg] at h
        replace h : (if b then Outcome.ok () d
            else Outcome.err (.doesNotExist path) d) = Outcome.ok () d' := h
        cases hb : b with
        | false =>
          rw [hb] at h
          replace h : Outcome.err (.doesNotExist path) d
              = Outcome.ok () d' := h
          cases h
        | true =>
          rw [hb] at h
          replace h : Outcome.ok () d = Outcome.ok () d' := h
          cases h
          exact hu
      | some node =>
        cases node with
        | dir n cs =>
          rw [hg] at h
          replace h : Outcome.err (.isADirectory path) d
              = Outcome.ok () d' := h
          cases h
        | file n cc =>
          rw [hg] at h
          replace h : (match d.cloneDir (getParentPath path)
              (fun dn dcs => Except.ok (dn,
                dcs.filter (fun c2 => c2.name ≠ getNodeName path))) with
            | .error e => Outcome.err e d
            | .ok d2 => Outcome.ok () d2) = Outcome.ok () d' := h
          rw [hfclone] at h
          replace h : Outcome.ok () (Disk.mk d.rootName fcs2)
              = Outcome.ok () d' := h
          cases h
          exact hfcu
  · intro d' h
    unfold Disk.removeDir at h
    cases hg : d.getNode path with
    | error e =>
      rw [hg] at h
      replace h : Outcome.err e d = Outcome.ok () d' := h
      cases h
    | ok o =>
      cases o with
      | none =>
        rw [hg] at h
        replace h : (if b then Outcome.ok () d
            else Outcome.err (.doesNotExist path) d) = Outcome.ok () d' := h
        cases hb : b with
        | false =>
          rw [hb] at h
          replace h : Outcome.err (.doesNotExist path) d
              = Outcome.ok () d' := h
          cases h
        | true =>
          rw [hb] at h
          replace h : Outcome.ok () d = Outcome.ok () d' := h
          cases h
          exact hu
      | some node =>
        cases node with
        | file n cc =>
          rw [hg] at h
          replace h : Outcome.err (.isAFile path) d
              = Outcome.ok () d' := h
          cases h
        | dir n cs =>
          rw [hg] at h
          replace h : (match d.cloneDir (getParentPath path)
              (fun dn dcs => Except.ok (dn,
                dcs.filter (fun c2 => c2.name ≠ getNodeName path))) with
            | .error e => Outcome.err e d
            | .ok d2 => Outcome.ok () d2) = Outcome.ok () d' := h
          rw [hfclone] at h
          replace h : Outcome.ok () (Disk.mk d.rootName fcs2)
              = Outcome.ok () d' := h
          cases h
          exact hfcu
  · intro d' h
    unfold Disk.removePriv at h
    cases hg : d.getNode path with
    | error e =>
      rw [hg] at h
      replace h : Outcome.err e d = Outcome.ok () d' := h
      cases h
    | ok o =>
      cases o with
      | none =>
        rw [hg] at h
        replace h : Outcome.err (.doesNotExist path) d
            = Outcome.ok () d' := h
        cases h
      | some node =>
        rw [hg] at h
        replace h : (match d.cloneDir (getParentPath path)
            (fun dn dcs => Except.ok (dn,
              dcs.filter (fun c2 => c2.name ≠ getNodeName path))) with
          | .error e => Outcome.err e d
          | .ok d2 => Outcome.ok () d2) = Outcome.ok () d' := h
        rw [hfclone] at h
        replace h : Outcome.ok () (Disk.mk d.rootName fcs2)
            = Outcome.ok () d' := h
        cases h
        exact hfcu

end Webdisk

namespace Webdisk

/-- Counterexample to claim C9 as frozen: copying the file "/x" into the
directory "/b", which already holds a child named "x", succeeds yet leaves a
directory with two children named "x" — the sibling-uniqueness invariant is
broken by a successful copy. -/
theorem claim_C9_counterexample :
    (Disk.mk "" [.file "x" "1", .dir "b" [.file "x" "2"]]).uniq = true ∧
    (Disk.mk "" [.file "x" "1", .dir "b" [.file "x" "2"]]).copyFile
        "/x" "/b" false
      = .ok () (Disk.mk ""
          [.file "x" "1", .dir "b" [.file "x" "2", .file "x" "1"]]) ∧
    (Disk.mk ""
        [.file "x" "1", .dir "b" [.file "x" "2", .file "x" "1"]]).uniq
      = false :=
  ⟨rfl, rfl, rfl⟩

/-- Witness for claim C9 on the README tree: removing a picture keeps the
invariant. -/
theorem claim_C9_witness :
    ∃ d', fixtureDisk.removeFile "/pics/asterix.jpg" false = .ok () d' ∧
      d'.uniq = true := by
  have happ := (claim_C9 fixtureDisk "/pics/asterix.jpg" "" false "pics"
    [ .file "asterix.jpg" "FFh D8h asterix",
      .file "obelix.jpg" "FFh D8h obelix",
      .dir "large-pics"
        [ .file "asterix-large.jpg" "FFh D8h asterix",
          .file "obelix-large.jpg" "FFh D8h obelix",
          .dir "backup"
            [ .file "asterix-large-bak.jpg" "FFh D8h asterix",
              .file "obelix-large-bak.jpg" "FFh D8h obelix" ] ] ]
    rfl rfl).2.2.1
  refine ⟨Disk.mk "/"
    [ .dir "docs" [],
      .dir "pics"
        [ .file "obelix.jpg" "FFh D8h obelix",
          .dir "large-pics"
            [ .file "asterix-large.jpg" "FFh D8h asterix",
              .file "obelix-large.jpg" "FFh D8h obelix",
              .dir "backup"
                [ .file "asterix-large-bak.jpg" "FFh D8h asterix",
                  .file "obelix-large-bak.jpg" "FFh D8h obelix" ] ] ] ],
    rfl, happ _ rfl⟩

end Webdisk
